import Mathlib

/-!
# OData filter compiler and query assembly (`mongo/mongo.go`)

A shallow embedding of `applyFilter`, `addConnectionToAndQuery`, `GetODataQuery` and
`ODataQuery` from `mongo/mongo.go`, followed by theorems about them.

Conventions of the embedding

* A Go `interface{}` held by a parser token is a `Value` (a tagged union of the
  dynamic types the parser stores).
* `bson.M` (a Go map) is an association list with unique keys, written with
  `mapSet` (Go `m[k] = v`) and read with `List.lookup` (Go `m[k]`).
* A Go call either returns its pair `(value, error)` or panics: `Ret`.
* `applyFilter` writes into the tree it is given (`node.Children[1].Token.Value = ...`),
  so the embedding returns the tree after the call next to the Go result.
* Go strings are modelled by Lean strings (sequences of Unicode characters).
  The byte `0x27` only ever occurs in UTF-8 as the character `'`, so removing
  that character is what `strings.Replace(s, "'", "", -1)` does.
* A filter is a finite tree: every node has a token (no nil `node`, no nil `node.Token`)
  and no node is shared between two parents.
* The case bodies of the `switch` in `applyFilter` are separate definitions (`cmpCase`,
  `gtCase`, `rangeCase`, `regexCase`, `andCase`, `orCase`), each citing its source lines.
  `andCase` and `orCase` receive what the two recursive calls return; since a call has no
  effect outside its own subtree, handing over the right call's result before it is looked
  at is the same as making the call at that point.
-/

namespace OData

/-! ## Data model -/

/-- Dynamic value of a parser token (`Token.Value interface{}`): the parser stores a
string, an `int`, a `float64` (kept as its bit pattern), a `bool`, or nothing. -/
inductive Value where
  | str (s : String)
  | int (i : Int)
  | float (bits : Nat)
  | bool (b : Bool)
  | null
deriving DecidableEq, Repr

/-- Modelled from the spec: `parser.Token` (the parser package is not part of the sources);
only its `Value` is read by the compiler. -/
structure Token where
  Value : Value
deriving DecidableEq, Repr

/-- Modelled from the spec: `parser.ParseNode` (FilterNode): a token and an ordered
sequence of children. -/
inductive ParseNode where
  | mk (Token : Token) (Children : List ParseNode)
deriving Repr

/-- Token of a node (`node.Token`). -/
def ParseNode.token : ParseNode → Token
  | .mk t _ => t

/-- Children of a node (`node.Children`). -/
def ParseNode.children : ParseNode → List ParseNode
  | .mk _ cs => cs

/-- The assignment `n.Token.Value = v`. -/
def ParseNode.setValue : ParseNode → Value → ParseNode
  | .mk _ cs, v => .mk ⟨v⟩ cs

/-- Values that occur inside a `bson.M`: a token value passed through (or a Go literal),
a `primitive.ObjectID` (its bytes), a `primitive.Regex`, a nested `bson.M`, the nil
`bson.M`, and a `[]bson.M`. -/
inductive BVal where
  | lit (v : Value)
  | oid (bytes : List Nat)
  | regex (Pattern : String) (Options : String)
  | m (entries : List (String × BVal))
  | nilM
  | ms (items : List BVal)
deriving Repr

/-- A non-nil `bson.M`. -/
abbrev M := List (String × BVal)

/-- Go `m[k] = v`: overwrite the entry of `k` when present, add it otherwise. -/
def mapSet : M → String → BVal → M
  | [], k, v => [(k, v)]
  | (k0, v0) :: rest, k, v => if k0 = k then (k0, v) :: rest else (k0, v0) :: mapSet rest k v

/-- A `bson.M` variable as a value: `nil` or a map. -/
def BVal.ofM : Option M → BVal
  | none => .nilM
  | some entries => .m entries

/-- Errors: the package variable `ErrInvalidInput` and `errors.Wrap(err, message)`. -/
inductive Error where
  | ErrInvalidInput
  | Wrap (err : Error) (message : String)
deriving DecidableEq, Repr

/-- Outcome of a Go call with results `(value, error)`: it returns both, or panics. -/
inductive Ret (α : Type) where
  | ret (value : α) (err : Option Error)
  | panic
deriving Repr

/-- `strings.Replace(s, "'", "", -1)`: every single quote (character 39) removed. -/
def stripQuotes (s : String) : String :=
  String.mk (s.data.filter (fun c => c != Char.ofNat 39))

/-! ## `primitive.ObjectIDFromHex` -/

/-- Value of one hexadecimal digit (`encoding/hex`: `0-9`, `a-f`, `A-F`). -/
def hexVal (c : Char) : Option Nat :=
  if 48 ≤ c.toNat ∧ c.toNat ≤ 57 then some (c.toNat - 48)
  else if 97 ≤ c.toNat ∧ c.toNat ≤ 102 then some (c.toNat - 97 + 10)
  else if 65 ≤ c.toNat ∧ c.toNat ≤ 70 then some (c.toNat - 65 + 10)
  else none

/-- `hex.DecodeString`: two digits per byte, failing on an odd length or a non-digit. -/
def decodeHex : List Char → Option (List Nat)
  | [] => some []
  | [_] => none
  | a :: b :: rest =>
    match hexVal a, hexVal b, decodeHex rest with
    | some x, some y, some bytes => some ((16 * x + y) :: bytes)
    | _, _, _ => none

/-- `primitive.ObjectIDFromHex` of the MongoDB driver: the string must be 24 bytes long
and decode as hexadecimal; the result is the 12 decoded bytes. -/
def ObjectIDFromHex (s : String) : Option (List Nat) :=
  if s.utf8ByteSize = 24 then decodeHex s.data else none

/-! ## `applyFilter` -/

/-- Cases `"eq"` and `"ne"` (mongo.go 202-222): strip quotes from a string literal in place,
build `{"$"+op: literal}`, then require a string field name. -/
def cmpCase (tok : Token) (op : String) (children : List ParseNode) :
    ParseNode × Ret (Option M) :=
  match children with
  | c0 :: c1 :: rest =>
    let c1' : ParseNode :=
      match c1.token.Value with
      | .str s => c1.setValue (.str (stripQuotes s))
      | _ => c1
    let value : M := mapSet [] ("$" ++ op) (.lit c1'.token.Value)
    match c0.token.Value with
    | .str key => (.mk tok (c0 :: c1' :: rest), .ret (some (mapSet [] key (.m value))) none)
    | _ => (.mk tok (c0 :: c1' :: rest), .ret none (some .ErrInvalidInput))
  | _ => (.mk tok children, .panic)

/-- Case `"gt"` (mongo.go 224-244): the field name is checked first; for `_id` the literal
is decoded as an object identifier, otherwise it is passed through. -/
def gtCase (tok : Token) (op : String) (children : List ParseNode) :
    ParseNode × Ret (Option M) :=
  match children with
  | [] => (.mk tok children, .panic)
  | c0 :: tl =>
    match c0.token.Value with
    | .str keyString =>
      match tl with
      | [] => (.mk tok children, .panic)
      | c1 :: _ =>
        if keyString = "_id" then
          let idString : String :=
            match c1.token.Value with
            | .str s => stripQuotes s
            | _ => ""
          match ObjectIDFromHex idString with
          | none => (.mk tok children, .ret none (some .ErrInvalidInput))
          | some oid =>
            (.mk tok children,
              .ret (some (mapSet [] keyString (.m (mapSet [] ("$" ++ op) (.oid oid))))) none)
        else
          (.mk tok children,
            .ret (some (mapSet [] keyString
              (.m (mapSet [] ("$" ++ op) (.lit c1.token.Value))))) none)
    | _ => (.mk tok children, .ret none (some .ErrInvalidInput))

/-- Cases `"ge"`, `"lt"`, `"le"` (mongo.go 246-265): build `{native: literal}` from the
second child, then require a string field name. -/
def rangeCase (tok : Token) (native : String) (children : List ParseNode) :
    ParseNode × Ret (Option M) :=
  match children with
  | c0 :: c1 :: _ =>
    let value : M := mapSet [] native (.lit c1.token.Value)
    match c0.token.Value with
    | .str key => (.mk tok children, .ret (some (mapSet [] key (.m value))) none)
    | _ => (.mk tok children, .ret none (some .ErrInvalidInput))
  | _ => (.mk tok children, .panic)

/-- Cases `"startswith"`, `"endswith"`, `"contains"` (mongo.go 290-316): the second child
must be a string; it is stripped in place; the field name is taken by an unchecked type
assertion, which panics on a non-string. -/
def regexCase (tok : Token) (pattern : String → String) (children : List ParseNode) :
    ParseNode × Ret (Option M) :=
  match children with
  | c0 :: c1 :: rest =>
    match c1.token.Value with
    | .str s =>
      let c1' := c1.setValue (.str (stripQuotes s))
      match c0.token.Value with
      | .str key =>
        (.mk tok (c0 :: c1' :: rest),
          .ret (some (mapSet [] key (.regex (pattern (stripQuotes s)) "gi"))) none)
      | _ => (.mk tok (c0 :: c1' :: rest), .panic)
    | _ => (.mk tok children, .ret none (some .ErrInvalidInput))
  | _ => (.mk tok children, .panic)

/-- Case `"and"` (mongo.go 267-276) on a node with a first child, given the recursive calls:
`left` is the call on `Children[0]`, `tl` the children after the first, and `right` the
call on `Children[1]` (absent when there is no second child). The right call is looked at
only after the left one returned without error, as in the source; its error is dropped
(`rightFilter, _ :=`) and the left error, nil at that point, is tested a second time. -/
def andCase (tok : Token) (left : ParseNode × Ret (Option M)) (tl : List ParseNode)
    (right : Option (ParseNode × Ret (Option M))) : ParseNode × Ret (Option M) :=
  match left with
  | (c0', .panic) => (.mk tok (c0' :: tl), .panic)
  | (c0', .ret _ (some err)) => (.mk tok (c0' :: tl), .ret none (some err))
  | (c0', .ret leftFilter none) =>
    match right with
    | none => (.mk tok (c0' :: tl), .panic)
    | some (c1', .panic) => (.mk tok (c0' :: c1' :: tl.tail), .panic)
    | some (c1', .ret rightFilter _) =>
      (.mk tok (c0' :: c1' :: tl.tail),
        .ret (some (mapSet [] "$and" (.ms [BVal.ofM leftFilter, BVal.ofM rightFilter]))) none)

/-- Case `"or"` (mongo.go 278-287), with the same arguments as `andCase`: both errors are
tested, each right after its call. -/
def orCase (tok : Token) (left : ParseNode × Ret (Option M)) (tl : List ParseNode)
    (right : Option (ParseNode × Ret (Option M))) : ParseNode × Ret (Option M) :=
  match left with
  | (c0', .panic) => (.mk tok (c0' :: tl), .panic)
  | (c0', .ret _ (some err)) => (.mk tok (c0' :: tl), .ret none (some err))
  | (c0', .ret leftFilter none) =>
    match right with
    | none => (.mk tok (c0' :: tl), .panic)
    | some (c1', .panic) => (.mk tok (c0' :: c1' :: tl.tail), .panic)
    | some (c1', .ret _ (some err)) => (.mk tok (c0' :: c1' :: tl.tail), .ret none (some err))
    | some (c1', .ret rightFilter none) =>
      (.mk tok (c0' :: c1' :: tl.tail),
        .ret (some (mapSet [] "$or" (.ms [BVal.ofM leftFilter, BVal.ofM rightFilter]))) none)

/-- The function `applyFilter` (mongo.go 195-321). The first component is the tree after the
call, the second what the call returns. An access `node.Children[i]` past the end panics. -/
def applyFilter : ParseNode → ParseNode × Ret (Option M)
  | .mk tok children =>
    match tok.Value with
    | .str op =>
      if op = "eq" then cmpCase tok op children
      else if op = "ne" then cmpCase tok op children
      else if op = "gt" then gtCase tok op children
      else if op = "ge" then rangeCase tok "$gte" children
      else if op = "lt" then rangeCase tok ("$" ++ op) children
      else if op = "le" then rangeCase tok "$lte" children
      else if op = "and" then
        match children with
        | [] => (.mk tok children, .panic)
        | [c0] => andCase tok (applyFilter c0) [] none
        | c0 :: c1 :: rest => andCase tok (applyFilter c0) (c1 :: rest) (some (applyFilter c1))
      else if op = "or" then
        match children with
        | [] => (.mk tok children, .panic)
        | [c0] => orCase tok (applyFilter c0) [] none
        | c0 :: c1 :: rest => orCase tok (applyFilter c0) (c1 :: rest) (some (applyFilter c1))
      else if op = "startswith" then regexCase tok (fun s => "^" ++ s) children
      else if op = "endswith" then regexCase tok (fun s => s ++ "$") children
      else if op = "contains" then regexCase tok (fun s => s) children
      else (.mk tok children, .ret (some []) none)
    | _ => (.mk tok children, .ret (some []) none)

/-- What `applyFilter` returns (the Go result pair, or a panic). -/
def compile (node : ParseNode) : Ret (Option M) := (applyFilter node).2

/-- Leaf node holding a token value. -/
def leaf (v : Value) : ParseNode := .mk ⟨v⟩ []

/-- Node `op(c0, c1)`. -/
def binary (op : String) (c0 c1 : ParseNode) : ParseNode := .mk ⟨.str op⟩ [c0, c1]

/-! ## Query assembly -/

/-- Modelled from the spec: `parser.OrderItem`, a (field, direction) pair of `$orderby`. -/
structure OrderItem where
  Field : String
  Order : String
deriving DecidableEq, Repr

/-- Modelled from the spec: the ParameterSet produced by `parser.ParseURLValues` (the parser
package is not part of the sources): the entries of the map under `$top`, `$skip`,
`$filter`, `$select` and `$orderby`, each absent or of the type the parser stores. -/
structure QueryMap where
  Top : Option Int
  Skip : Option Int
  Filter : Option ParseNode
  Select : Option (List String)
  OrderBy : Option (List OrderItem)

/-- The struct `Query` (mongo.go 26-32). `SortSpec` is its field `Sort` (a reserved word
here), a `bson.D`: a list of key/value pairs. -/
structure Query where
  Filter : Option M
  Select : Option M
  Limit : Int
  Skip : Int
  SortSpec : List (String × BVal)

/-- The scoping clause `{"$or": [{"connection_id": id}, {"connection": id}]}`. -/
def scopingClause (connectionID : String) : BVal :=
  .m [("$or", .ms [.m [("connection_id", .lit (.str connectionID))],
                   .m [("connection", .lit (.str connectionID))]])]

/-- The function `addConnectionToAndQuery` (mongo.go 34-46): the caller's `$and` list when
the entry is a `[]bson.M` (nil otherwise), with the scoping clause appended. -/
def addConnectionToAndQuery (connectionID : String) (filterObj : M) : List BVal :=
  let andFilter : List BVal :=
    match filterObj.lookup "$and" with
    | some (.ms items) => items
    | _ => []
  andFilter ++ [scopingClause connectionID]

/-- Text of an error (`err.Error()`). -/
def Error.message : Error → String
  | .ErrInvalidInput => "odata syntax error"
  | .Wrap err message => message ++ ": " ++ err.message

/-- The select map of `GetODataQuery` (mongo.go 153-165). -/
def buildSelect (sel : Option (List String)) : M :=
  let selectMap : M := mapSet [] "_id" (.lit (.int 0))
  match sel with
  | none => selectMap
  | some selectSlice =>
    if selectSlice.length > 1 ∧ selectSlice.head? ≠ some "*" then
      selectSlice.foldl (fun acc fieldName => mapSet acc fieldName (.lit (.int 1))) selectMap
    else selectMap

/-- The sort fields of `GetODataQuery` (mongo.go 170-180). -/
def buildSort (orderBy : Option (List OrderItem)) : List (String × BVal) :=
  match orderBy with
  | none => []
  | some orderBySlice =>
    orderBySlice.foldl
      (fun sortFields item =>
        sortFields ++ [(item.Field, .lit (.int (if item.Order = "desc" then -1 else 1)))])
      []

/-- The function `GetODataQuery` (mongo.go 124-187), given what `parser.ParseURLValues`
returned for the URL values: an error text or the parameter map. -/
def GetODataQuery (connectionID : String) (parsed : Except String QueryMap) : Ret Query :=
  match parsed with
  | .error text =>
    .ret ⟨none, none, 0, 0, []⟩ (some (.Wrap .ErrInvalidInput text))
  | .ok queryMap =>
    let limit : Int := queryMap.Top.getD 0
    let skip : Int := queryMap.Skip.getD 0
    let compiled : Ret (Option M) :=
      match queryMap.Filter with
      | none => .ret (some []) none
      | some filterQuery => (applyFilter filterQuery).2
    match compiled with
    | .panic => .panic
    | .ret _ (some err) =>
      .ret ⟨none, none, limit, skip, []⟩ (some (.Wrap .ErrInvalidInput err.message))
    | .ret none none => .panic
    | .ret (some filterObj) none =>
      let filterObj' := mapSet filterObj "$and" (.ms (addConnectionToAndQuery connectionID filterObj))
      .ret ⟨some filterObj', some (buildSelect queryMap.Select), limit, skip,
            buildSort queryMap.OrderBy⟩ none

/-! ## `ODataQuery` and the backend -/

/-- What `ODataQuery` hands to `collection.Find`: the filter and the four options
(`SetProjection`, `SetLimit`, `SetSkip`, `SetSort`); `int64(limit)` and `int64(skip)` are
the integers `limit` and `skip`. -/
structure FindCall where
  filter : M
  projection : M
  limit : Int
  skip : Int
  sort : List (String × BVal)

/-- A call made on the backend: `collection.Find`, `cur.All`, `collection.CountDocuments`. -/
inductive BackendCall where
  | find (args : FindCall)
  | all
  | count (filter : M)

/-- Modelled from the spec: the Backend Executor, a collection handle of the driver. Each
field tells what the call returns: an error text or nothing for `Find` and `cur.All`, an
error text or the count for `CountDocuments`. -/
structure Collection where
  Find : FindCall → Option String
  All : FindCall → Option String
  CountDocuments : M → Except String Int

/-- An error returned by `ODataQuery`: one of this package, or one of the driver. -/
inductive QueryError where
  | invalid (err : Error)
  | backend (text : String)
deriving DecidableEq, Repr

/-- Outcome of `ODataQuery`: it returns `(count, error)` or panics. -/
inductive QueryRet where
  | ret (count : Int) (err : Option QueryError)
  | panic
deriving DecidableEq, Repr

/-- The function `ODataQuery` (mongo.go 50-122), given what `parser.ParseURLValues`
returned and the collection: the backend calls it makes, in order, and what it returns. -/
def ODataQuery (connectionID : String) (parsed : Except String QueryMap)
    (collection : Collection) : List BackendCall × QueryRet :=
  match parsed with
  | .error text => ([], .ret 0 (some (.invalid (.Wrap .ErrInvalidInput text))))
  | .ok queryMap =>
    let limit : Int := queryMap.Top.getD 0
    let skip : Int := queryMap.Skip.getD 0
    let compiled : Ret (Option M) :=
      match queryMap.Filter with
      | none => .ret (some []) none
      | some filterQuery => (applyFilter filterQuery).2
    match compiled with
    | .panic => ([], .panic)
    | .ret _ (some err) =>
      ([], .ret 0 (some (.invalid (.Wrap .ErrInvalidInput err.message))))
    | .ret none none => ([], .panic)
    | .ret (some filterObj) none =>
      let filterObj' := mapSet filterObj "$and" (.ms (addConnectionToAndQuery connectionID filterObj))
      let selectMap : M :=
        let selectMap : M := mapSet [] "_id" (.lit (.int 0))
        match queryMap.Select with
        | none => selectMap
        | some selectSlice =>
          if selectSlice.length > 1 ∧ selectSlice.head? ≠ some "*" then
            selectSlice.foldl (fun acc fieldName => mapSet acc fieldName (.lit (.int 1))) selectMap
          else selectMap
      let sortFields : List (String × BVal) :=
        match queryMap.OrderBy with
        | none => []
        | some orderBySlice =>
          orderBySlice.foldl
            (fun sortFields item =>
              sortFields ++ [(item.Field, .lit (.int (if item.Order = "desc" then -1 else 1)))])
            []
      let args : FindCall := ⟨filterObj', selectMap, limit, skip, sortFields⟩
      match collection.Find args with
      | some text => ([.find args], .ret 0 (some (.backend text)))
      | none =>
        match collection.All args with
        | some text => ([.find args, .all], .ret 0 (some (.backend text)))
        | none =>
          match collection.CountDocuments filterObj' with
          | .error text =>
            ([.find args, .all, .count filterObj'], .ret 0 (some (.backend text)))
          | .ok count => ([.find args, .all, .count filterObj'], .ret count none)

/-! ## Predicates used in the statements -/

/-- A call panics, returns `(map, nil)`, or returns `(nil, ErrInvalidInput)`. -/
def Ret.wellFormed (r : Ret (Option M)) : Prop :=
  r = .panic ∨ (∃ m, r = .ret (some m) none) ∨ r = .ret none (some .ErrInvalidInput)

/-- The operator tokens of the `switch` in `applyFilter`. -/
def operators : List String :=
  ["eq", "ne", "gt", "ge", "lt", "le", "and", "or", "startswith", "endswith", "contains"]

/-- The comparison operators with the native operator the claim pairs each with. -/
def nativeTable : List (String × String) :=
  [("eq", "$eq"), ("ne", "$ne"), ("gt", "$gt"), ("ge", "$gte"), ("lt", "$lt"), ("le", "$lte")]

/-- The hexadecimal digits. -/
def hexDigits : List Char := "0123456789abcdefABCDEF".data

/-- A valid object identifier in text form: 24 characters, each a hexadecimal digit. -/
def validObjectIDHex (s : String) : Bool :=
  s.length == 24 && s.data.all (fun c => hexDigits.contains c)

/-- Whether `p` is an initial segment of `t`. -/
def startsWith : List Char → List Char → Bool
  | [], _ => true
  | _ :: _, [] => false
  | p :: ps, c :: cs => p == c && startsWith ps cs

/-- Whether `p` occurs somewhere in `t`. -/
def occursIn (p : List Char) : List Char → Bool
  | [] => startsWith p []
  | c :: cs => startsWith p (c :: cs) || occursIn p cs

/-- Modelled from the spec: the pattern-match predicate of the document store, for the
patterns built by the compiler from a literal without regular-expression metacharacters.
`^literal` matches a subject that starts with the literal, `literal$` one that ends with
it, `literal` one that contains it; with `i` among the options letters compare without
regard to case. -/
def patternMatches (pattern options subject : String) : Bool :=
  let fold : List Char → List Char :=
    fun cs => if options.data.contains 'i' then cs.map Char.toLower else cs
  let t := fold subject.data
  match fold pattern.data with
  | '^' :: body => startsWith body t
  | p =>
    if p.getLast? = some '$' then startsWith p.dropLast.reverse t.reverse
    else occursIn p t

/-- The operators whose case writes the stripped literal back into its second child. -/
def stripOperators : List String := ["eq", "ne", "startswith", "endswith", "contains"]

/-- Whether a token `after` a call is the token `before` it: it is unchanged, or (only
when `allow` holds) it held a string and now holds that string without its single quotes. -/
def tokenKept (allow : Bool) (before after : Token) : Bool :=
  after.Value == before.Value ||
    (allow && match before.Value with
              | .str s => after.Value == .str (stripQuotes s)
              | _ => false)

mutual
/-- Whether the tree `after` has the shape of the tree `before`: the same token at every
node and the same children in the same order, where only the token of the second child of
a node whose token is one of `stripOperators` may have lost its single quotes. `allow`
tells whether the node compared is such a second child. -/
def sameNode (allow : Bool) : ParseNode → ParseNode → Bool
  | .mk t cs, .mk t2 cs2 =>
    tokenKept allow t t2 &&
      sameChildren (match t.Value with
                    | .str op => stripOperators.contains op
                    | _ => false) 0 cs cs2
/-- The children from position `i` on, compared one by one; `strip` tells whether the
parent's token is one of `stripOperators`. -/
def sameChildren (strip : Bool) (i : Nat) : List ParseNode → List ParseNode → Bool
  | [], [] => true
  | c :: cs, c2 :: cs2 => sameNode (strip && i == 1) c c2 && sameChildren strip (i + 1) cs cs2
  | _, _ => false
end

/-- The operators of the pattern functions. -/
def patternOperators : List String := ["startswith", "endswith", "contains"]

/-- Whether a token holds a string. -/
def Token.isString (t : Token) : Bool :=
  match t.Value with
  | .str _ => true
  | _ => false

mutual
/-- Whether, everywhere in the tree, a node whose token is one of `operators` has exactly two
children and a node whose token is one of `patternOperators` has a string token as its
first child. -/
def wellShaped : ParseNode → Bool
  | .mk t cs =>
    (match t.Value with
     | .str op =>
       (!operators.contains op || cs.length == 2) &&
       (!patternOperators.contains op ||
          (match cs.head? with
           | some c0 => c0.token.isString
           | none => false))
     | _ => true) && allWellShaped cs
/-- Whether every tree of the list is `wellShaped`. -/
def allWellShaped : List ParseNode → Bool
  | [] => true
  | c :: cs => wellShaped c && allWellShaped cs
end

mutual
/-- Modelled from the spec: whether a record matches a predicate, in the document-matching
semantics of the store. A map matches when each of its entries does; a `$and` list matches
when every element does and a `$or` list when some element does. What a record makes of a
field condition is the parameter `field`, and what it makes of a list element that is not a
map (a nil map among them) is the parameter `other`: they stand for the record. -/
def holds (field : String → BVal → Bool) (other : BVal → Bool) : BVal → Bool
  | .m entries => entriesHold field other entries
  | .lit v => other (.lit v)
  | .oid bytes => other (.oid bytes)
  | .regex p o => other (.regex p o)
  | .nilM => other .nilM
  | .ms items => other (.ms items)
/-- Every entry of a map holds. -/
def entriesHold (field : String → BVal → Bool) (other : BVal → Bool) :
    List (String × BVal) → Bool
  | [] => true
  | (k, v) :: rest => entryHolds field other k v && entriesHold field other rest
/-- One entry `k: v` of a map holds. -/
def entryHolds (field : String → BVal → Bool) (other : BVal → Bool) (k : String) :
    BVal → Bool
  | .ms items =>
    if k = "$and" then allHold field other items
    else if k = "$or" then someHolds field other items
    else field k (.ms items)
  | .lit v => field k (.lit v)
  | .oid bytes => field k (.oid bytes)
  | .regex p o => field k (.regex p o)
  | .m entries => field k (.m entries)
  | .nilM => field k .nilM
/-- Every predicate of a list holds. -/
def allHold (field : String → BVal → Bool) (other : BVal → Bool) : List BVal → Bool
  | [] => true
  | p :: ps => holds field other p && allHold field other ps
/-- Some predicate of a list holds. -/
def someHolds (field : String → BVal → Bool) (other : BVal → Bool) : List BVal → Bool
  | [] => false
  | p :: ps => holds field other p || someHolds field other ps
end

/-- The filter of a parameter map compiles: there is none, or `applyFilter` returns a
predicate and a nil error on it. -/
def filterCompiles (queryMap : QueryMap) : Prop :=
  queryMap.Filter = none ∨
    ∃ node filterObj, queryMap.Filter = some node ∧ compile node = .ret (some filterObj) none

/-- A projection that restricts nothing: the nil map or a map without entries. -/
def unrestricted (projection : Option M) : Bool :=
  match projection with
  | none => true
  | some m => m.isEmpty

/-! ## Evaluation lemmas -/

/-- What the `eq`/`ne` case returns on children `c0 :: c1 :: rest`. -/
theorem cmpCase_snd (tok : Token) (op : String) (c0 c1 : ParseNode) (rest : List ParseNode) :
    (cmpCase tok op (c0 :: c1 :: rest)).2 =
      match c0.token.Value with
      | .str key =>
        .ret (some [(key, .m [("$" ++ op,
          .lit (match c1.token.Value with
                | .str s => .str (stripQuotes s)
                | v => v))])]) none
      | _ => .ret none (some .ErrInvalidInput) := by
  cases c0 with
  | mk t0 cs0 =>
    cases c1 with
    | mk t1 cs1 =>
      cases t0 with
      | mk v0 =>
        cases t1 with
        | mk v1 =>
          cases v0 <;> cases v1 <;>
            simp [cmpCase, ParseNode.token, ParseNode.setValue, mapSet]

theorem applyFilter_and2 (c0 c1 : ParseNode) (rest : List ParseNode) :
    applyFilter (.mk ⟨.str "and"⟩ (c0 :: c1 :: rest)) =
      andCase ⟨.str "and"⟩ (applyFilter c0) (c1 :: rest) (some (applyFilter c1)) := by
  simp [applyFilter]

theorem applyFilter_or2 (c0 c1 : ParseNode) (rest : List ParseNode) :
    applyFilter (.mk ⟨.str "or"⟩ (c0 :: c1 :: rest)) =
      orCase ⟨.str "or"⟩ (applyFilter c0) (c1 :: rest) (some (applyFilter c1)) := by
  simp [applyFilter]

/-- What the `or` case returns, in terms of what the two recursive calls return. -/
theorem compile_or2 (c0 c1 : ParseNode) (rest : List ParseNode) :
    compile (.mk ⟨.str "or"⟩ (c0 :: c1 :: rest)) =
      match compile c0 with
      | .panic => .panic
      | .ret _ (some err) => .ret none (some err)
      | .ret leftFilter none =>
        match compile c1 with
        | .panic => .panic
        | .ret _ (some err) => .ret none (some err)
        | .ret rightFilter none =>
          .ret (some [("$or", .ms [BVal.ofM leftFilter, BVal.ofM rightFilter])]) none := by
  rw [compile, applyFilter_or2, compile, compile]
  rcases applyFilter c0 with ⟨c0', ⟨l, _ | e⟩ | _⟩ <;>
    rcases applyFilter c1 with ⟨c1', ⟨r, _ | e1⟩ | _⟩ <;> simp [orCase, mapSet]

/-- What the `and` case returns, in terms of what the two recursive calls return. -/
theorem compile_and2 (c0 c1 : ParseNode) (rest : List ParseNode) :
    compile (.mk ⟨.str "and"⟩ (c0 :: c1 :: rest)) =
      match compile c0 with
      | .panic => .panic
      | .ret _ (some err) => .ret none (some err)
      | .ret leftFilter none =>
        match compile c1 with
        | .panic => .panic
        | .ret rightFilter _ =>
          .ret (some [("$and", .ms [BVal.ofM leftFilter, BVal.ofM rightFilter])]) none := by
  rw [compile, applyFilter_and2, compile, compile]
  rcases applyFilter c0 with ⟨c0', ⟨l, _ | e⟩ | _⟩ <;>
    rcases applyFilter c1 with ⟨c1', ⟨r, _ | e1⟩ | _⟩ <;> simp [andCase, mapSet]


theorem applyFilter_eq (children : List ParseNode) :
    applyFilter (.mk ⟨.str "eq"⟩ children) = cmpCase ⟨.str "eq"⟩ "eq" children := by
  rcases children with _ | ⟨c0, _ | ⟨c1, rest⟩⟩ <;> simp [applyFilter]

theorem applyFilter_ne (children : List ParseNode) :
    applyFilter (.mk ⟨.str "ne"⟩ children) = cmpCase ⟨.str "ne"⟩ "ne" children := by
  rcases children with _ | ⟨c0, _ | ⟨c1, rest⟩⟩ <;> simp [applyFilter]

theorem applyFilter_gt (children : List ParseNode) :
    applyFilter (.mk ⟨.str "gt"⟩ children) = gtCase ⟨.str "gt"⟩ "gt" children := by
  rcases children with _ | ⟨c0, _ | ⟨c1, rest⟩⟩ <;> simp [applyFilter]

theorem applyFilter_ge (children : List ParseNode) :
    applyFilter (.mk ⟨.str "ge"⟩ children) = rangeCase ⟨.str "ge"⟩ "$gte" children := by
  rcases children with _ | ⟨c0, _ | ⟨c1, rest⟩⟩ <;> simp [applyFilter]

theorem applyFilter_lt (children : List ParseNode) :
    applyFilter (.mk ⟨.str "lt"⟩ children) = rangeCase ⟨.str "lt"⟩ "$lt" children := by
  rcases children with _ | ⟨c0, _ | ⟨c1, rest⟩⟩ <;> simp [applyFilter]

theorem applyFilter_le (children : List ParseNode) :
    applyFilter (.mk ⟨.str "le"⟩ children) = rangeCase ⟨.str "le"⟩ "$lte" children := by
  rcases children with _ | ⟨c0, _ | ⟨c1, rest⟩⟩ <;> simp [applyFilter]

theorem applyFilter_startswith (children : List ParseNode) :
    applyFilter (.mk ⟨.str "startswith"⟩ children) =
      regexCase ⟨.str "startswith"⟩ (fun s => "^" ++ s) children := by
  rcases children with _ | ⟨c0, _ | ⟨c1, rest⟩⟩ <;> simp [applyFilter]

theorem applyFilter_endswith (children : List ParseNode) :
    applyFilter (.mk ⟨.str "endswith"⟩ children) =
      regexCase ⟨.str "endswith"⟩ (fun s => s ++ "$") children := by
  rcases children with _ | ⟨c0, _ | ⟨c1, rest⟩⟩ <;> simp [applyFilter]

theorem applyFilter_contains (children : List ParseNode) :
    applyFilter (.mk ⟨.str "contains"⟩ children) =
      regexCase ⟨.str "contains"⟩ (fun s => s) children := by
  rcases children with _ | ⟨c0, _ | ⟨c1, rest⟩⟩ <;> simp [applyFilter]

theorem applyFilter_other (op : String) (children : List ParseNode) (h : op ∉ operators) :
    applyFilter (.mk ⟨.str op⟩ children) = (.mk ⟨.str op⟩ children, .ret (some []) none) := by
  simp only [operators, List.mem_cons, List.mem_singleton, not_or, List.not_mem_nil,
    not_false_eq_true, and_true] at h
  rcases children with _ | ⟨c0, _ | ⟨c1, rest⟩⟩ <;> simp [applyFilter, h]

theorem applyFilter_nonString (v : Value) (children : List ParseNode)
    (h : ∀ s, v ≠ .str s) :
    applyFilter (.mk ⟨v⟩ children) = (.mk ⟨v⟩ children, .ret (some []) none) := by
  cases v with
  | str s => exact absurd rfl (h s)
  | _ => rcases children with _ | ⟨c0, _ | ⟨c1, rest⟩⟩ <;> simp [applyFilter]

theorem cmpCase_wellFormed (tok : Token) (op : String) (children : List ParseNode) :
    Ret.wellFormed (cmpCase tok op children).2 := by
  rcases children with _ | ⟨c0, _ | ⟨c1, rest⟩⟩
  · simp [cmpCase, Ret.wellFormed]
  · simp [cmpCase, Ret.wellFormed]
  · cases h : c0.token.Value <;> simp [cmpCase, h, Ret.wellFormed]

theorem gtCase_wellFormed (tok : Token) (op : String) (children : List ParseNode) :
    Ret.wellFormed (gtCase tok op children).2 := by
  rcases children with _ | ⟨c0, _ | ⟨c1, rest⟩⟩
  · simp [gtCase, Ret.wellFormed]
  · cases h : c0.token.Value <;> simp [gtCase, h, Ret.wellFormed]
  · cases h : c0.token.Value <;> simp [gtCase, h, Ret.wellFormed]
    split
    · split <;> simp
    · simp

theorem rangeCase_wellFormed (tok : Token) (native : String) (children : List ParseNode) :
    Ret.wellFormed (rangeCase tok native children).2 := by
  rcases children with _ | ⟨c0, _ | ⟨c1, rest⟩⟩
  · simp [rangeCase, Ret.wellFormed]
  · simp [rangeCase, Ret.wellFormed]
  · cases h : c0.token.Value <;> simp [rangeCase, h, Ret.wellFormed]

theorem regexCase_wellFormed (tok : Token) (pattern : String → String)
    (children : List ParseNode) : Ret.wellFormed (regexCase tok pattern children).2 := by
  rcases children with _ | ⟨c0, _ | ⟨c1, rest⟩⟩
  · simp [regexCase, Ret.wellFormed]
  · simp [regexCase, Ret.wellFormed]
  · cases h1 : c1.token.Value <;> cases h0 : c0.token.Value <;>
      simp [regexCase, h0, h1, Ret.wellFormed]

theorem andCase_wellFormed (tok : Token) (left : ParseNode × Ret (Option M))
    (tl : List ParseNode) (right : Option (ParseNode × Ret (Option M)))
    (hl : Ret.wellFormed left.2) : Ret.wellFormed (andCase tok left tl right).2 := by
  rcases left with ⟨c0', ⟨l, _ | e⟩ | _⟩ <;>
    rcases right with _ | ⟨c1', ⟨r, _ | e1⟩ | _⟩ <;>
    simp_all [andCase, Ret.wellFormed]

theorem orCase_wellFormed (tok : Token) (left : ParseNode × Ret (Option M))
    (tl : List ParseNode) (right : Option (ParseNode × Ret (Option M)))
    (hl : Ret.wellFormed left.2) (hr : ∀ r, right = some r → Ret.wellFormed r.2) :
    Ret.wellFormed (orCase tok left tl right).2 := by
  rcases left with ⟨c0', ⟨l, _ | e⟩ | _⟩ <;>
    rcases right with _ | ⟨c1', ⟨r, _ | e1⟩ | _⟩ <;>
    simp_all [orCase, Ret.wellFormed]

theorem applyFilter_wellFormed : ∀ n : ParseNode, Ret.wellFormed (applyFilter n).2
  | .mk tok children => by
    cases tok with
    | mk v =>
      by_cases hs : ∀ s, v ≠ .str s
      · rw [applyFilter_nonString v children hs]; simp [Ret.wellFormed]
      · push_neg at hs
        obtain ⟨op, rfl⟩ := hs
        by_cases hop : op ∈ operators
        · simp only [operators, List.mem_cons, List.mem_singleton, List.not_mem_nil,
            or_false] at hop
          rcases hop with rfl | rfl | rfl | rfl | rfl | rfl | rfl | rfl | rfl | rfl | rfl
          · rw [applyFilter_eq]; exact cmpCase_wellFormed _ _ _
          · rw [applyFilter_ne]; exact cmpCase_wellFormed _ _ _
          · rw [applyFilter_gt]; exact gtCase_wellFormed _ _ _
          · rw [applyFilter_ge]; exact rangeCase_wellFormed _ _ _
          · rw [applyFilter_lt]; exact rangeCase_wellFormed _ _ _
          · rw [applyFilter_le]; exact rangeCase_wellFormed _ _ _
          · match children with
            | [] => simp [applyFilter, Ret.wellFormed]
            | [c0] =>
              have h : applyFilter (.mk ⟨.str "and"⟩ [c0]) =
                  andCase ⟨.str "and"⟩ (applyFilter c0) [] none := by simp [applyFilter]
              rw [h]
              exact andCase_wellFormed _ _ _ _ (applyFilter_wellFormed c0)
            | c0 :: c1 :: rest =>
              rw [applyFilter_and2]
              exact andCase_wellFormed _ _ _ _ (applyFilter_wellFormed c0)
          · match children with
            | [] => simp [applyFilter, Ret.wellFormed]
            | [c0] =>
              have h : applyFilter (.mk ⟨.str "or"⟩ [c0]) =
                  orCase ⟨.str "or"⟩ (applyFilter c0) [] none := by simp [applyFilter]
              rw [h]
              exact orCase_wellFormed _ _ _ _ (applyFilter_wellFormed c0) (by simp)
            | c0 :: c1 :: rest =>
              rw [applyFilter_or2]
              refine orCase_wellFormed _ _ _ _ (applyFilter_wellFormed c0) ?_
              intro r hr
              cases hr
              exact applyFilter_wellFormed c1
          · rw [applyFilter_startswith]; exact regexCase_wellFormed _ _ _
          · rw [applyFilter_endswith]; exact regexCase_wellFormed _ _ _
          · rw [applyFilter_contains]; exact regexCase_wellFormed _ _ _
        · rw [applyFilter_other op children hop]; simp [Ret.wellFormed]

/-! ## Logical connectives -/

/-- C1, at a failing input: in `(a eq 1) and (_id gt 'xyz')` the right child fails to compile
(`xyz` is no object identifier), yet `applyFilter` on the `and` node returns a predicate and
a nil error, the predicate holding a nil map in place of the right child. -/
theorem and_right_failure_swallowed :
    compile (binary "gt" (leaf (.str "_id")) (leaf (.str "\x27xyz\x27")))
        = .ret none (some .ErrInvalidInput) ∧
    compile (binary "and" (binary "eq" (leaf (.str "a")) (leaf (.int 1)))
        (binary "gt" (leaf (.str "_id")) (leaf (.str "\x27xyz\x27"))))
        = .ret (some [("$and", .ms [.m [("a", .m [("$eq", .lit (.int 1))])], .nilM])]) none := by
  constructor <;> rfl

/-- C2: on an `or` node with two children, a failure of the left call is returned as it is;
when the left call returned (so that the right child is compiled at all) a failure of the
right call is returned; and the node returns a predicate with a nil error only if both
calls did. -/
theorem or_propagates_child_failure (c0 c1 : ParseNode) (rest : List ParseNode) :
    (∀ v e, compile c0 = .ret v (some e) →
      compile (.mk ⟨.str "or"⟩ (c0 :: c1 :: rest)) = .ret none (some e)) ∧
    (∀ v e, compile c0 ≠ .panic → compile c1 = .ret v (some e) →
      compile (.mk ⟨.str "or"⟩ (c0 :: c1 :: rest)) = .ret none (some e)) ∧
    (∀ v, compile (.mk ⟨.str "or"⟩ (c0 :: c1 :: rest)) = .ret v none →
      ∃ l r, compile c0 = .ret (some l) none ∧ compile c1 = .ret (some r) none) := by
  have w0 := applyFilter_wellFormed c0
  have w1 := applyFilter_wellFormed c1
  rw [compile_or2]
  simp only [Ret.wellFormed] at w0 w1
  change (compile c0 = _ ∨ (∃ m, compile c0 = _) ∨ compile c0 = _) at w0
  change (compile c1 = _ ∨ (∃ m, compile c1 = _) ∨ compile c1 = _) at w1
  rcases w0 with h0 | ⟨l, h0⟩ | h0 <;> rcases w1 with h1 | ⟨r, h1⟩ | h1 <;>
    simp [h0, h1]

/-- C2 at concrete trees: a failing left child, a failing right child after a good left
one, and two good children. -/
theorem or_propagates_child_failure_witness :
    compile (binary "or" (binary "eq" (leaf (.int 0)) (leaf (.str "b")))
        (binary "eq" (leaf (.str "a")) (leaf (.int 1)))) = .ret none (some .ErrInvalidInput) ∧
    compile (binary "or" (binary "eq" (leaf (.str "a")) (leaf (.int 1)))
        (binary "eq" (leaf (.int 0)) (leaf (.str "b")))) = .ret none (some .ErrInvalidInput) ∧
    (∃ l r, compile (binary "eq" (leaf (.str "a")) (leaf (.int 1))) = .ret (some l) none ∧
        compile (binary "eq" (leaf (.str "b")) (leaf (.int 2))) = .ret (some r) none) :=
  ⟨(or_propagates_child_failure _ _ []).1 none .ErrInvalidInput rfl,
   (or_propagates_child_failure (binary "eq" (leaf (.str "a")) (leaf (.int 1))) _ []).2.1
      none .ErrInvalidInput
      (by
        rw [show compile (binary "eq" (leaf (.str "a")) (leaf (.int 1)))
          = .ret (some [("a", .m [("$eq", .lit (.int 1))])]) none from rfl]
        simp)
      rfl,
   (or_propagates_child_failure (binary "eq" (leaf (.str "a")) (leaf (.int 1)))
      (binary "eq" (leaf (.str "b")) (leaf (.int 2))) []).2.2 _ rfl⟩

/-- C9: when both children return a predicate and a nil error, an `and` node returns the one
key `$and` and an `or` node the one key `$or`, bound to the two predicates in order. -/
theorem and_or_wrap_children (c0 c1 : ParseNode) (rest : List ParseNode) (l r : M)
    (h0 : compile c0 = .ret (some l) none) (h1 : compile c1 = .ret (some r) none) :
    compile (.mk ⟨.str "and"⟩ (c0 :: c1 :: rest))
        = .ret (some [("$and", .ms [.m l, .m r])]) none ∧
    compile (.mk ⟨.str "or"⟩ (c0 :: c1 :: rest))
        = .ret (some [("$or", .ms [.m l, .m r])]) none := by
  rw [compile_and2, compile_or2, h0, h1]
  simp [BVal.ofM]

/-- C9 at `(a eq 1) and/or (b lt 2)`. -/
theorem and_or_wrap_children_witness :
    compile (binary "and" (binary "eq" (leaf (.str "a")) (leaf (.int 1)))
        (binary "lt" (leaf (.str "b")) (leaf (.int 2))))
      = .ret (some [("$and", .ms [.m [("a", .m [("$eq", .lit (.int 1))])],
                                  .m [("b", .m [("$lt", .lit (.int 2))])]])]) none ∧
    compile (binary "or" (binary "eq" (leaf (.str "a")) (leaf (.int 1)))
        (binary "lt" (leaf (.str "b")) (leaf (.int 2))))
      = .ret (some [("$or", .ms [.m [("a", .m [("$eq", .lit (.int 1))])],
                                 .m [("b", .m [("$lt", .lit (.int 2))])]])]) none :=
  and_or_wrap_children _ _ [] _ _ rfl rfl

/-! ## Comparison operators -/

theorem gtCase_snd (tok : Token) (op : String) (c0 c1 : ParseNode) (rest : List ParseNode) :
    (gtCase tok op (c0 :: c1 :: rest)).2 =
      match c0.token.Value with
      | .str keyString =>
        if keyString = "_id" then
          match ObjectIDFromHex (match c1.token.Value with
                                 | .str s => stripQuotes s
                                 | _ => "") with
          | none => .ret none (some .ErrInvalidInput)
          | some oid => .ret (some [("_id", .m [("$" ++ op, .oid oid)])]) none
        else .ret (some [(keyString, .m [("$" ++ op, .lit c1.token.Value)])]) none
      | _ => .ret none (some .ErrInvalidInput) := by
  cases h : c0.token.Value <;> simp [gtCase, h, mapSet]
  split
  · split <;> simp_all
  · rfl

theorem rangeCase_snd (tok : Token) (native : String) (c0 c1 : ParseNode)
    (rest : List ParseNode) :
    (rangeCase tok native (c0 :: c1 :: rest)).2 =
      match c0.token.Value with
      | .str key => .ret (some [(key, .m [(native, .lit c1.token.Value)])]) none
      | _ => .ret none (some .ErrInvalidInput) := by
  cases h : c0.token.Value <;> simp [rangeCase, h, mapSet]

/-- C10: a comparison node whose first child does not hold a string returns
`ErrInvalidInput`, whatever the second child holds. -/
theorem comparison_nonstring_field_fails (op native : String)
    (hop : (op, native) ∈ nativeTable) (c0 c1 : ParseNode) (rest : List ParseNode)
    (h : ∀ s, c0.token.Value ≠ .str s) :
    compile (.mk ⟨.str op⟩ (c0 :: c1 :: rest)) = .ret none (some .ErrInvalidInput) := by
  simp only [nativeTable, List.mem_cons, List.mem_singleton, Prod.mk.injEq,
    List.not_mem_nil, or_false] at hop
  rcases hop with ⟨rfl, rfl⟩ | ⟨rfl, rfl⟩ | ⟨rfl, rfl⟩ | ⟨rfl, rfl⟩ | ⟨rfl, rfl⟩ | ⟨rfl, rfl⟩
  · rw [compile, applyFilter_eq, cmpCase_snd]
    cases h0 : c0.token.Value <;> simp_all
  · rw [compile, applyFilter_ne, cmpCase_snd]
    cases h0 : c0.token.Value <;> simp_all
  · rw [compile, applyFilter_gt, gtCase_snd]
    cases h0 : c0.token.Value <;> simp_all
  · rw [compile, applyFilter_ge, rangeCase_snd]
    cases h0 : c0.token.Value <;> simp_all
  · rw [compile, applyFilter_lt, rangeCase_snd]
    cases h0 : c0.token.Value <;> simp_all
  · rw [compile, applyFilter_le, rangeCase_snd]
    cases h0 : c0.token.Value <;> simp_all

/-- C10 at `0 eq epc_item_type`. -/
theorem comparison_nonstring_field_fails_witness :
    compile (binary "eq" (leaf (.int 0)) (leaf (.str "epc_item_type")))
      = .ret none (some .ErrInvalidInput) :=
  comparison_nonstring_field_fails "eq" "$eq" (by decide) _ _ [] (by intro s h; cases h)

/-- C7: a comparison node with a string field name `f` (not `_id` under `gt`) and a literal
that is not a string returns the one key `f` bound to the one-entry map from the native
operator to that literal. -/
theorem comparison_nonstring_literal (op native : String)
    (hop : (op, native) ∈ nativeTable) (c0 c1 : ParseNode) (rest : List ParseNode)
    (f : String) (hf : c0.token.Value = .str f) (hv : ∀ s, c1.token.Value ≠ .str s)
    (hid : op = "gt" → f ≠ "_id") :
    compile (.mk ⟨.str op⟩ (c0 :: c1 :: rest))
      = .ret (some [(f, .m [(native, .lit c1.token.Value)])]) none := by
  simp only [nativeTable, List.mem_cons, List.mem_singleton, Prod.mk.injEq,
    List.not_mem_nil, or_false] at hop
  rcases hop with ⟨rfl, rfl⟩ | ⟨rfl, rfl⟩ | ⟨rfl, rfl⟩ | ⟨rfl, rfl⟩ | ⟨rfl, rfl⟩ | ⟨rfl, rfl⟩
  · rw [compile, applyFilter_eq, cmpCase_snd, hf]
    cases h1 : c1.token.Value <;> simp_all
  · rw [compile, applyFilter_ne, cmpCase_snd, hf]
    cases h1 : c1.token.Value <;> simp_all
  · rw [compile, applyFilter_gt, gtCase_snd, hf]
    simp [hid rfl]
  · rw [compile, applyFilter_ge, rangeCase_snd, hf]
  · rw [compile, applyFilter_lt, rangeCase_snd, hf]
  · rw [compile, applyFilter_le, rangeCase_snd, hf]

/-- C7 at `age ge 10`. -/
theorem comparison_nonstring_literal_witness :
    compile (binary "ge" (leaf (.str "age")) (leaf (.int 10)))
      = .ret (some [("age", .m [("$gte", .lit (.int 10))])]) none :=
  comparison_nonstring_literal "ge" "$gte" (by decide) _ (leaf (.int 10)) [] "age" rfl
    (by intro s h; cases h) (by decide)

/-- C3, at failing inputs: with the literal `O'Brien` and the field `name`, the `gt`, `ge`,
`lt` and `le` cases put the literal into the predicate with its single quote, while the
`eq` case puts `OBrien`. -/
theorem range_literal_keeps_quote :
    compile (binary "gt" (leaf (.str "name")) (leaf (.str "O\x27Brien")))
      = .ret (some [("name", .m [("$gt", .lit (.str "O\x27Brien"))])]) none ∧
    compile (binary "ge" (leaf (.str "name")) (leaf (.str "O\x27Brien")))
      = .ret (some [("name", .m [("$gte", .lit (.str "O\x27Brien"))])]) none ∧
    compile (binary "lt" (leaf (.str "name")) (leaf (.str "O\x27Brien")))
      = .ret (some [("name", .m [("$lt", .lit (.str "O\x27Brien"))])]) none ∧
    compile (binary "le" (leaf (.str "name")) (leaf (.str "O\x27Brien")))
      = .ret (some [("name", .m [("$lte", .lit (.str "O\x27Brien"))])]) none ∧
    compile (binary "eq" (leaf (.str "name")) (leaf (.str "O\x27Brien")))
      = .ret (some [("name", .m [("$eq", .lit (.str "OBrien"))])]) none := by
  refine ⟨?_, ?_, ?_, ?_, ?_⟩ <;> rfl

/-- C5, at failing inputs: with the field `_id` and the literal `'xyz'`, which is no
object identifier, the `ge`, `lt` and `le` cases return a predicate holding the raw string
and a nil error, while the `gt` case returns `ErrInvalidInput`. -/
theorem id_range_literal_passed_raw :
    compile (binary "ge" (leaf (.str "_id")) (leaf (.str "\x27xyz\x27")))
      = .ret (some [("_id", .m [("$gte", .lit (.str "\x27xyz\x27"))])]) none ∧
    compile (binary "lt" (leaf (.str "_id")) (leaf (.str "\x27xyz\x27")))
      = .ret (some [("_id", .m [("$lt", .lit (.str "\x27xyz\x27"))])]) none ∧
    compile (binary "le" (leaf (.str "_id")) (leaf (.str "\x27xyz\x27")))
      = .ret (some [("_id", .m [("$lte", .lit (.str "\x27xyz\x27"))])]) none ∧
    compile (binary "gt" (leaf (.str "_id")) (leaf (.str "\x27xyz\x27")))
      = .ret none (some .ErrInvalidInput) := by
  refine ⟨?_, ?_, ?_, ?_⟩ <;> rfl

/-! ## Pattern functions -/

theorem regexCase_snd (tok : Token) (pattern : String → String) (c0 c1 : ParseNode)
    (rest : List ParseNode) :
    (regexCase tok pattern (c0 :: c1 :: rest)).2 =
      match c1.token.Value with
      | .str s =>
        match c0.token.Value with
        | .str key => .ret (some [(key, .regex (pattern (stripQuotes s)) "gi")]) none
        | _ => .panic
      | _ => .ret none (some .ErrInvalidInput) := by
  cases h1 : c1.token.Value <;> cases h0 : c0.token.Value <;>
    simp [regexCase, h0, h1, mapSet]

/-- C8: with a string field name `f` and a string literal `s`, the three pattern functions
return `{f: regex}` whose pattern is `^` then the stripped literal (`startswith`), the
stripped literal then `$` (`endswith`), the stripped literal (`contains`), with options
`gi`, which hold the flag `i`; without a string as second child they return
`ErrInvalidInput`. The pattern of `startswith(name, 'Jo')` is `^Jo`; it matches `John` and
`Joanna` and not `Anjo`. -/
theorem pattern_functions (c0 c1 : ParseNode) (rest : List ParseNode) :
    (∀ f s, c0.token.Value = .str f → c1.token.Value = .str s →
      compile (.mk ⟨.str "startswith"⟩ (c0 :: c1 :: rest))
        = .ret (some [(f, .regex ("^" ++ stripQuotes s) "gi")]) none ∧
      compile (.mk ⟨.str "endswith"⟩ (c0 :: c1 :: rest))
        = .ret (some [(f, .regex (stripQuotes s ++ "$") "gi")]) none ∧
      compile (.mk ⟨.str "contains"⟩ (c0 :: c1 :: rest))
        = .ret (some [(f, .regex (stripQuotes s) "gi")]) none) ∧
    ((∀ s, c1.token.Value ≠ .str s) →
      compile (.mk ⟨.str "startswith"⟩ (c0 :: c1 :: rest)) = .ret none (some .ErrInvalidInput) ∧
      compile (.mk ⟨.str "endswith"⟩ (c0 :: c1 :: rest)) = .ret none (some .ErrInvalidInput) ∧
      compile (.mk ⟨.str "contains"⟩ (c0 :: c1 :: rest)) = .ret none (some .ErrInvalidInput)) ∧
    'i' ∈ "gi".data ∧
    compile (binary "startswith" (leaf (.str "name")) (leaf (.str "\x27Jo\x27")))
      = .ret (some [("name", .regex "^Jo" "gi")]) none ∧
    patternMatches "^Jo" "gi" "John" = true ∧
    patternMatches "^Jo" "gi" "Joanna" = true ∧
    patternMatches "^Jo" "gi" "Anjo" = false := by
  refine ⟨?_, ?_, by decide, rfl, by decide, by decide, by decide⟩
  · intro f s h0 h1
    simp only [compile, applyFilter_startswith, applyFilter_endswith, applyFilter_contains,
      regexCase_snd, h0, h1]
    simp
  · intro h
    simp only [compile, applyFilter_startswith, applyFilter_endswith, applyFilter_contains,
      regexCase_snd]
    cases h1 : c1.token.Value <;> simp_all

/-- C8 at `endswith(upc_code, '789')` and at `contains(epc_time, 0)`. -/
theorem pattern_functions_witness :
    compile (binary "endswith" (leaf (.str "upc_code")) (leaf (.str "\x27789\x27")))
      = .ret (some [("upc_code", .regex "789$" "gi")]) none ∧
    compile (binary "contains" (leaf (.str "epc_time")) (leaf (.int 0)))
      = .ret none (some .ErrInvalidInput) :=
  ⟨((pattern_functions (leaf (.str "upc_code")) (leaf (.str "\x27789\x27")) []).1
      "upc_code" "\x27789\x27" rfl rfl).2.1,
   ((pattern_functions (leaf (.str "epc_time")) (leaf (.int 0)) []).2.1
      (by intro s h; cases h)).2.2⟩

/-! ## Object identifiers -/

theorem hexVal_isSome_iff (c : Char) : (hexVal c).isSome = true ↔ c ∈ hexDigits := by
  constructor
  · intro h
    have hc : Char.ofNat c.toNat = c := Char.ofNat_toNat c
    unfold hexVal at h
    split at h
    · rename_i h1
      obtain ⟨ha, hb⟩ := h1
      rw [← hc]
      interval_cases c.toNat <;> decide
    · split at h
      · rename_i h1
        obtain ⟨ha, hb⟩ := h1
        rw [← hc]
        interval_cases c.toNat <;> decide
      · split at h
        · rename_i h1
          obtain ⟨ha, hb⟩ := h1
          rw [← hc]
          interval_cases c.toNat <;> decide
        · simp at h
  · intro h
    simp only [hexDigits, List.mem_cons, List.mem_singleton, List.not_mem_nil, or_false] at h
    rcases h with rfl | rfl | rfl | rfl | rfl | rfl | rfl | rfl | rfl | rfl | rfl | rfl | rfl |
      rfl | rfl | rfl | rfl | rfl | rfl | rfl | rfl | rfl <;> decide

theorem hexVal_lt (c : Char) (x : Nat) (h : hexVal c = some x) : x < 16 := by
  unfold hexVal at h
  split at h
  · simp at h; omega
  · split at h
    · simp at h; omega
    · split at h
      · simp at h; omega
      · simp at h

theorem hexDigit_utf8Size (c : Char) (h : c ∈ hexDigits) : c.utf8Size = 1 := by
  simp only [hexDigits, List.mem_cons, List.mem_singleton, List.not_mem_nil, or_false] at h
  rcases h with rfl | rfl | rfl | rfl | rfl | rfl | rfl | rfl | rfl | rfl | rfl | rfl | rfl |
    rfl | rfl | rfl | rfl | rfl | rfl | rfl | rfl | rfl <;> rfl

theorem utf8Len_hexDigits (cs : List Char) (h : ∀ c ∈ cs, c ∈ hexDigits) :
    String.utf8Len cs = cs.length := by
  induction cs with
  | nil => rfl
  | cons c cs ih =>
    rw [String.utf8Len_cons, ih (fun d hd => h d (List.mem_cons_of_mem _ hd)),
      hexDigit_utf8Size c (h c (List.mem_cons_self _ _))]
    simp

theorem decodeHex_of_digits : ∀ (n : Nat) (cs : List Char), cs.length = 2 * n →
    (∀ c ∈ cs, c ∈ hexDigits) →
    ∃ bytes, decodeHex cs = some bytes ∧ bytes.length = n ∧ ∀ b ∈ bytes, b < 256
  | 0, cs, hlen, _ => by
    have : cs = [] := List.length_eq_zero.mp (by omega)
    subst this
    exact ⟨[], rfl, rfl, by simp⟩
  | n + 1, cs, hlen, hall => by
    match cs, hlen, hall with
    | [], hlen, _ => simp at hlen
    | [_], hlen, _ => simp at hlen; omega
    | a :: b :: tl, hlen, hall =>
      have ha : (hexVal a).isSome = true := (hexVal_isSome_iff a).2 (hall a (by simp))
      have hb : (hexVal b).isSome = true := (hexVal_isSome_iff b).2 (hall b (by simp))
      obtain ⟨x, hx⟩ := Option.isSome_iff_exists.mp ha
      obtain ⟨y, hy⟩ := Option.isSome_iff_exists.mp hb
      obtain ⟨bytes, hd, hl, hlt⟩ := decodeHex_of_digits n tl (by simp at hlen; omega)
        (fun c hc => hall c (by simp [hc]))
      refine ⟨(16 * x + y) :: bytes, by simp [decodeHex, hx, hy, hd], by simp [hl], ?_⟩
      intro v hv
      rcases List.mem_cons.mp hv with rfl | hv
      · have := hexVal_lt a x hx
        have := hexVal_lt b y hy
        omega
      · exact hlt v hv

theorem decodeHex_digits : ∀ (cs : List Char) (bytes : List Nat), decodeHex cs = some bytes →
    (∀ c ∈ cs, c ∈ hexDigits) ∧ cs.length = 2 * bytes.length
  | [], bytes, h => by
    simp [decodeHex] at h
    subst h
    simp
  | [_], bytes, h => by simp [decodeHex] at h
  | a :: b :: tl, bytes, h => by
    simp only [decodeHex] at h
    cases hx : hexVal a with
    | none => simp [hx] at h
    | some x =>
      cases hy : hexVal b with
      | none => simp [hx, hy] at h
      | some y =>
        cases hd : decodeHex tl with
        | none => simp [hx, hy, hd] at h
        | some rest =>
          simp [hx, hy, hd] at h
          subst h
          obtain ⟨hall, hlen⟩ := decodeHex_digits tl rest hd
          refine ⟨?_, by simp [hlen]; omega⟩
          intro c hc
          simp only [List.mem_cons] at hc
          rcases hc with rfl | rfl | hc
          · exact (hexVal_isSome_iff _).1 (by simp [hx])
          · exact (hexVal_isSome_iff _).1 (by simp [hy])
          · exact hall c hc

theorem validObjectIDHex_iff (s : String) :
    validObjectIDHex s = true ↔ s.data.length = 24 ∧ ∀ c ∈ s.data, c ∈ hexDigits := by
  cases s with
  | mk cs =>
    simp only [validObjectIDHex, String.length, Bool.and_eq_true, beq_iff_eq, List.all_eq_true,
      List.contains, List.elem_iff]

/-- `ObjectIDFromHex` accepts exactly the valid identifiers, and yields 12 bytes. -/
theorem ObjectIDFromHex_valid (s : String) (h : validObjectIDHex s = true) :
    ∃ oid, ObjectIDFromHex s = some oid ∧ oid.length = 12 ∧ ∀ b ∈ oid, b < 256 := by
  obtain ⟨hlen, hall⟩ := (validObjectIDHex_iff s).1 h
  obtain ⟨oid, hd, hl, hlt⟩ := decodeHex_of_digits 12 s.data (by omega) hall
  refine ⟨oid, ?_, hl, hlt⟩
  have hsize : s.utf8ByteSize = 24 := by
    cases s with
    | mk cs =>
      rw [String.utf8ByteSize_mk, utf8Len_hexDigits cs hall]
      exact hlen
  simp [ObjectIDFromHex, hsize, hd]

theorem ObjectIDFromHex_invalid (s : String) (h : validObjectIDHex s = false) :
    ObjectIDFromHex s = none := by
  cases hr : ObjectIDFromHex s with
  | none => rfl
  | some oid =>
    exfalso
    unfold ObjectIDFromHex at hr
    split at hr
    · rename_i hsize
      obtain ⟨hall, hlen⟩ := decodeHex_digits s.data oid hr
      have hv : validObjectIDHex s = true := by
        rw [validObjectIDHex_iff]
        refine ⟨?_, hall⟩
        cases s with
        | mk cs =>
          rw [String.utf8ByteSize_mk, utf8Len_hexDigits cs hall] at hsize
          exact hsize
      rw [hv] at h
      cases h
    · cases hr

/-- C4: on a `gt` node whose field name is `_id`, a literal that is not a string, or whose
text without single quotes is not a valid 24-digit hexadecimal identifier, gives
`ErrInvalidInput`; a literal whose text without single quotes is valid gives the predicate
`{"_id": {"$gt": oid}}` where `oid` is the identifier decoded to its 12 bytes. -/
theorem id_gt_object_identifier (c0 c1 : ParseNode) (rest : List ParseNode)
    (h0 : c0.token.Value = .str "_id") :
    ((∀ s, c1.token.Value = .str s → validObjectIDHex (stripQuotes s) = false) →
      compile (.mk ⟨.str "gt"⟩ (c0 :: c1 :: rest)) = .ret none (some .ErrInvalidInput)) ∧
    (∀ s, c1.token.Value = .str s → validObjectIDHex (stripQuotes s) = true →
      ∃ oid, ObjectIDFromHex (stripQuotes s) = some oid ∧ oid.length = 12 ∧
        (∀ b ∈ oid, b < 256) ∧
        compile (.mk ⟨.str "gt"⟩ (c0 :: c1 :: rest))
          = .ret (some [("_id", .m [("$gt", .oid oid)])]) none) := by
  constructor
  · intro h
    rw [compile, applyFilter_gt, gtCase_snd, h0]
    cases h1 : c1.token.Value with
    | str s => simp [ObjectIDFromHex_invalid _ (h s h1)]
    | _ => simp [show ObjectIDFromHex "" = none from rfl]
  · intro s h1 hv
    obtain ⟨oid, ho, hl, hlt⟩ := ObjectIDFromHex_valid _ hv
    refine ⟨oid, ho, hl, hlt, ?_⟩
    rw [compile, applyFilter_gt, gtCase_snd, h0, h1]
    simp [ho]

/-- C4 at `_id gt 10` and at `_id gt '5d5f1a2b3c4d5e6f7a8b9c0d'`. -/
theorem id_gt_object_identifier_witness :
    compile (binary "gt" (leaf (.str "_id")) (leaf (.int 10)))
      = .ret none (some .ErrInvalidInput) ∧
    ∃ oid, ObjectIDFromHex (stripQuotes "\x275d5f1a2b3c4d5e6f7a8b9c0d\x27") = some oid ∧
      oid.length = 12 ∧ (∀ b ∈ oid, b < 256) ∧
      compile (binary "gt" (leaf (.str "_id")) (leaf (.str "\x275d5f1a2b3c4d5e6f7a8b9c0d\x27")))
        = .ret (some [("_id", .m [("$gt", .oid oid)])]) none :=
  ⟨(id_gt_object_identifier (leaf (.str "_id")) (leaf (.int 10)) [] rfl).1
      (by intro s h; cases h),
   (id_gt_object_identifier (leaf (.str "_id"))
      (leaf (.str "\x275d5f1a2b3c4d5e6f7a8b9c0d\x27")) [] rfl).2 _ rfl (by decide)⟩

/-! ## Query assembly -/

theorem lookup_mapSet_self (m : M) (k : String) (v : BVal) :
    (mapSet m k v).lookup k = some v := by
  induction m with
  | nil => simp [mapSet, List.lookup]
  | cons e rest ih =>
    obtain ⟨k0, v0⟩ := e
    by_cases h : k0 = k
    · simp [mapSet, h, List.lookup]
    · have h2 : (k == k0) = false := by simpa using fun h3 => h h3.symm
      simp [mapSet, h, List.lookup, h2, ih]

theorem lookup_mapSet_other (m : M) (k k2 : String) (v : BVal) (hk : k2 ≠ k) :
    (mapSet m k v).lookup k2 = m.lookup k2 := by
  induction m with
  | nil =>
    have h2 : (k2 == k) = false := by simpa using hk
    simp [mapSet, List.lookup, h2]
  | cons e rest ih =>
    obtain ⟨k0, v0⟩ := e
    by_cases h : k0 = k
    · subst h
      have h2 : (k2 == k0) = false := by simpa using hk
      simp [mapSet, List.lookup, h2]
    · by_cases h3 : k2 = k0
      · subst h3
        simp [mapSet, h, List.lookup]
      · have h4 : (k2 == k0) = false := by simpa using h3
        simp [mapSet, h, List.lookup, h4, ih]

/-- C6: when the filter compiles to `filterObj` (the empty map when no filter is given),
`GetODataQuery` returns a query whose `Filter` binds `$and` to a list ending with the
scoping clause `{"$or": [{"connection_id": id}, {"connection": id}]}`; the elements of the
caller's own `$and` list come first, in order; every other key is bound as in `filterObj`;
and with no filter the `Filter` is `{"$and": [scoping clause]}`. -/
theorem scoping_clause_appended (connectionID : String) (queryMap : QueryMap) (filterObj : M)
    (hc : (queryMap.Filter = none ∧ filterObj = []) ∨
      ∃ node, queryMap.Filter = some node ∧ compile node = .ret (some filterObj) none) :
    ∃ q f, GetODataQuery connectionID (.ok queryMap) = .ret q none ∧ q.Filter = some f ∧
      (∃ before, f.lookup "$and" = some (.ms (before ++
        [.m [("$or", .ms [.m [("connection_id", .lit (.str connectionID))],
                          .m [("connection", .lit (.str connectionID))]])]]))) ∧
      (∀ items, filterObj.lookup "$and" = some (.ms items) →
        f.lookup "$and" = some (.ms (items ++
          [.m [("$or", .ms [.m [("connection_id", .lit (.str connectionID))],
                            .m [("connection", .lit (.str connectionID))]])]]))) ∧
      (∀ k, k ≠ "$and" → f.lookup k = filterObj.lookup k) ∧
      (queryMap.Filter = none →
        f = [("$and", .ms [.m [("$or", .ms [.m [("connection_id", .lit (.str connectionID))],
                                            .m [("connection", .lit (.str connectionID))]])]])]) := by
  have hcomp : (match queryMap.Filter with
      | none => Ret.ret (some ([] : M)) none
      | some filterQuery => (applyFilter filterQuery).2) = .ret (some filterObj) none := by
    rcases hc with ⟨h1, h2⟩ | ⟨node, h1, h2⟩
    · rw [h1, h2]
    · rw [h1]; exact h2
  refine ⟨⟨some (mapSet filterObj "$and" (.ms (addConnectionToAndQuery connectionID filterObj))),
      some (buildSelect queryMap.Select), queryMap.Top.getD 0, queryMap.Skip.getD 0,
      buildSort queryMap.OrderBy⟩,
    mapSet filterObj "$and" (.ms (addConnectionToAndQuery connectionID filterObj)),
    ?_, rfl, ?_, ?_, ?_, ?_⟩
  · simp only [GetODataQuery, hcomp]
  · exact ⟨_, by rw [lookup_mapSet_self]; rfl⟩
  · intro items hi
    rw [lookup_mapSet_self]
    simp [addConnectionToAndQuery, hi, scopingClause]
  · intro k hk
    exact lookup_mapSet_other _ _ _ _ hk
  · intro hn
    rcases hc with ⟨_, h2⟩ | ⟨node, h1, _⟩
    · subst h2
      rfl
    · rw [hn] at h1
      cases h1

/-- C6 at the filter `(a eq 1) and (b eq 2)` and at no filter, for the connection `c1`. -/
theorem scoping_clause_appended_witness :
    (∃ q f, GetODataQuery "c1" (.ok ⟨none, none,
          some (binary "and" (binary "eq" (leaf (.str "a")) (leaf (.int 1)))
            (binary "eq" (leaf (.str "b")) (leaf (.int 2)))), none, none⟩) = .ret q none ∧
        q.Filter = some f ∧
        f.lookup "$and" = some (.ms [.m [("a", .m [("$eq", .lit (.int 1))])],
          .m [("b", .m [("$eq", .lit (.int 2))])],
          .m [("$or", .ms [.m [("connection_id", .lit (.str "c1"))],
                           .m [("connection", .lit (.str "c1"))]])]])) ∧
    (∃ q, GetODataQuery "c1" (.ok ⟨none, none, none, none, none⟩) = .ret q none ∧
        q.Filter = some [("$and", .ms [.m [("$or", .ms [.m [("connection_id", .lit (.str "c1"))],
                                            .m [("connection", .lit (.str "c1"))]])]])]) := by
  constructor
  · obtain ⟨q, f, h1, h2, _, h4, _, _⟩ := scoping_clause_appended "c1"
      ⟨none, none, some (binary "and" (binary "eq" (leaf (.str "a")) (leaf (.int 1)))
        (binary "eq" (leaf (.str "b")) (leaf (.int 2)))), none, none⟩
      [("$and", .ms [.m [("a", .m [("$eq", .lit (.int 1))])],
          .m [("b", .m [("$eq", .lit (.int 2))])]])]
      (Or.inr ⟨_, rfl, rfl⟩)
    exact ⟨q, f, h1, h2, h4 _ rfl⟩
  · obtain ⟨q, f, h1, h2, _, _, _, h6⟩ := scoping_clause_appended "c1"
      ⟨none, none, none, none, none⟩ [] (Or.inl ⟨rfl, rfl⟩)
    exact ⟨q, h1, by rw [h2, h6 rfl]⟩

/-! ## Pattern functions: the field name -/

/-- C11, at a failing input: on `startswith(1, 'a')`, `endswith(1, 'a')` and
`contains(1, 'a')`, whose first child holds the integer 1, `applyFilter` panics on the
unchecked type assertion of the field name; on `1 eq 'a'` it returns `ErrInvalidInput`. -/
theorem pattern_nonstring_field_panics :
    compile (binary "startswith" (leaf (.int 1)) (leaf (.str "\x27a\x27"))) = .panic ∧
    compile (binary "endswith" (leaf (.int 1)) (leaf (.str "\x27a\x27"))) = .panic ∧
    compile (binary "contains" (leaf (.int 1)) (leaf (.str "\x27a\x27"))) = .panic ∧
    compile (binary "eq" (leaf (.int 1)) (leaf (.str "\x27a\x27")))
      = .ret none (some .ErrInvalidInput) := by
  refine ⟨?_, ?_, ?_, ?_⟩ <;> rfl

/-! ## Tokens outside the operator set -/

/-- C12: a node whose token is not one of the eleven operators, a token that holds no
string among them, returns the empty predicate and a nil error, whatever its children. -/
theorem unrecognized_token_empty_predicate (tok : Token) (children : List ParseNode)
    (h : ∀ op, op ∈ operators → tok.Value ≠ .str op) :
    compile (.mk tok children) = .ret (some []) none := by
  obtain ⟨v⟩ := tok
  by_cases hs : ∀ s, v ≠ .str s
  · rw [compile, applyFilter_nonString v children hs]
  · push_neg at hs
    obtain ⟨op, rfl⟩ := hs
    have hop : op ∉ operators := fun hmem => h op hmem rfl
    rw [compile, applyFilter_other op children hop]

/-- C12 at the token `fakeop` with two children and at the integer token 7 with one. -/
theorem unrecognized_token_empty_predicate_witness :
    compile (binary "fakeop" (leaf (.str "name")) (leaf (.str "hello")))
      = .ret (some []) none ∧
    compile (.mk ⟨.int 7⟩ [leaf (.str "name")]) = .ret (some []) none :=
  ⟨unrecognized_token_empty_predicate ⟨.str "fakeop"⟩ _ (by decide),
   unrecognized_token_empty_predicate ⟨.int 7⟩ _ (by intro op _ h; cases h)⟩

/-! ## Projection, ordering and pagination -/

/-- When the filter compiles, `GetODataQuery` returns a query and a nil error; its
projection, pagination and ordering are the ones built from the parameter map. -/
theorem GetODataQuery_of_compiles (connectionID : String) (queryMap : QueryMap)
    (hc : filterCompiles queryMap) :
    ∃ f, GetODataQuery connectionID (.ok queryMap)
      = .ret ⟨some f, some (buildSelect queryMap.Select), queryMap.Top.getD 0,
          queryMap.Skip.getD 0, buildSort queryMap.OrderBy⟩ none := by
  rcases hc with h | ⟨node, filterObj, h1, h2⟩
  · exact ⟨mapSet [] "$and" (.ms (addConnectionToAndQuery connectionID [])),
      by simp only [GetODataQuery, h]⟩
  · have h3 : (applyFilter node).2 = .ret (some filterObj) none := h2
    exact ⟨mapSet filterObj "$and" (.ms (addConnectionToAndQuery connectionID filterObj)),
      by simp only [GetODataQuery, h1, h3]⟩

theorem lookup_select_fold (fields : List String) : ∀ (m : M) (k : String),
    (fields.foldl (fun acc fieldName => mapSet acc fieldName (.lit (.int 1))) m).lookup k
      = if k ∈ fields then some (.lit (.int 1)) else m.lookup k := by
  induction fields with
  | nil => intro m k; simp
  | cons f rest ih =>
    intro m k
    rw [List.foldl_cons, ih]
    by_cases h1 : k ∈ rest
    · simp [h1]
    · by_cases h2 : k = f
      · subst h2
        simp [h1, lookup_mapSet_self]
      · simp [h1, h2, lookup_mapSet_other _ _ _ _ h2]

theorem lookup_id_only (k : String) :
    (mapSet [] "_id" (.lit (.int 0))).lookup k
      = if k = "_id" then some (.lit (.int 0)) else none := by
  by_cases h : k = "_id"
  · subst h; rfl
  · have h2 : (k == "_id") = false := by simpa using h
    simp [mapSet, List.lookup, h2, h]

/-- The projection built from a select list of at least two elements not starting with `*`. -/
theorem lookup_buildSelect (sel : List String) (h2 : 2 ≤ sel.length)
    (hstar : sel.head? ≠ some "*") (k : String) :
    (buildSelect (some sel)).lookup k
      = if k ∈ sel then some (.lit (.int 1))
        else if k = "_id" then some (.lit (.int 0)) else none := by
  have hcond : sel.length > 1 ∧ sel.head? ≠ some "*" := ⟨by omega, hstar⟩
  unfold buildSelect
  simp only []
  rw [if_pos hcond, lookup_select_fold, lookup_id_only]

/-- C13: for a select list of at least two elements whose first is not `*` (and a filter
that compiles), the `Select` of the query returned by `GetODataQuery` binds every named
field to 1, binds no key besides the named fields and `_id`, and binds `_id` to 0 exactly
when `_id` is not among the named fields. -/
theorem select_projection (connectionID : String) (queryMap : QueryMap) (sel : List String)
    (hc : filterCompiles queryMap) (hsel : queryMap.Select = some sel)
    (h2 : 2 ≤ sel.length) (hstar : sel.head? ≠ some "*") :
    ∃ q m, GetODataQuery connectionID (.ok queryMap) = .ret q none ∧ q.Select = some m ∧
      (∀ f, f ∈ sel → m.lookup f = some (.lit (.int 1))) ∧
      (∀ k v, m.lookup k = some v → k ∈ sel ∨ k = "_id") ∧
      (m.lookup "_id" = some (.lit (.int 0)) ↔ "_id" ∉ sel) := by
  obtain ⟨f, hq⟩ := GetODataQuery_of_compiles connectionID queryMap hc
  refine ⟨_, buildSelect (some sel), hq, by rw [hsel], ?_, ?_, ?_⟩
  · intro f hf
    rw [lookup_buildSelect sel h2 hstar, if_pos hf]
  · intro k v hk
    rw [lookup_buildSelect sel h2 hstar] at hk
    by_cases h1 : k ∈ sel
    · exact Or.inl h1
    · by_cases h3 : k = "_id"
      · exact Or.inr h3
      · simp [h1, h3] at hk
  · rw [lookup_buildSelect sel h2 hstar]
    by_cases h1 : "_id" ∈ sel
    · simp [h1]
    · simp [h1]

/-- C13 at `$select=name,age` with no filter: the projection is `{_id: 0, name: 1, age: 1}`. -/
theorem select_projection_witness :
    (∃ q m, GetODataQuery "c1" (.ok ⟨none, none, none, some ["name", "age"], none⟩)
        = .ret q none ∧ q.Select = some m ∧
      (∀ f, f ∈ ["name", "age"] → m.lookup f = some (.lit (.int 1))) ∧
      (∀ k v, m.lookup k = some v → k ∈ ["name", "age"] ∨ k = "_id") ∧
      (m.lookup "_id" = some (.lit (.int 0)) ↔ "_id" ∉ ["name", "age"])) ∧
    buildSelect (some ["name", "age"])
      = [("_id", .lit (.int 0)), ("name", .lit (.int 1)), ("age", .lit (.int 1))] :=
  ⟨select_projection "c1" ⟨none, none, none, some ["name", "age"], none⟩ ["name", "age"]
      (Or.inl rfl) rfl (by decide) (by decide),
   rfl⟩

/-- C14 as stated fails: with no `$select`, and with `$select=*`, the projection of the
query returned by `GetODataQuery` is `{_id: 0}`, which excludes the field `_id`. -/
theorem select_absent_excludes_id :
    (∃ q, GetODataQuery "c1" (.ok ⟨none, none, none, none, none⟩) = .ret q none ∧
      q.Select = some [("_id", .lit (.int 0))] ∧ unrestricted q.Select = false) ∧
    (∃ q, GetODataQuery "c1" (.ok ⟨none, none, none, some ["*"], none⟩) = .ret q none ∧
      q.Select = some [("_id", .lit (.int 0))] ∧ unrestricted q.Select = false) :=
  ⟨⟨_, rfl, rfl, rfl⟩, ⟨_, rfl, rfl, rfl⟩⟩

/-- C14 as amended: when `$select` is absent, or is the single element `*`, or has fewer
than two elements (and the filter compiles), the `Select` of the query returned by
`GetODataQuery` is exactly `{_id: 0}`: it names no field to include and excludes only the
field `_id`. -/
theorem select_default_projection (connectionID : String) (queryMap : QueryMap)
    (hc : filterCompiles queryMap)
    (hsel : queryMap.Select = none ∨ queryMap.Select = some ["*"] ∨
      ∃ sel, queryMap.Select = some sel ∧ sel.length < 2) :
    ∃ q, GetODataQuery connectionID (.ok queryMap) = .ret q none ∧
      q.Select = some [("_id", .lit (.int 0))] := by
  obtain ⟨f, hq⟩ := GetODataQuery_of_compiles connectionID queryMap hc
  refine ⟨_, hq, ?_⟩
  rcases hsel with h | h | ⟨sel, h, hlen⟩
  · rw [h]; rfl
  · rw [h]; rfl
  · rw [h]
    have hnot : ¬ (sel.length > 1 ∧ sel.head? ≠ some "*") := fun hh => by omega
    show some (buildSelect (some sel)) = _
    unfold buildSelect
    simp only []
    rw [if_neg hnot]
    rfl

/-- C14 as amended, at no `$select`, at `$select=*` and at `$select=name`. -/
theorem select_default_projection_witness :
    (∃ q, GetODataQuery "c1" (.ok ⟨none, none, none, none, none⟩) = .ret q none ∧
      q.Select = some [("_id", .lit (.int 0))]) ∧
    (∃ q, GetODataQuery "c1" (.ok ⟨none, none, none, some ["*"], none⟩) = .ret q none ∧
      q.Select = some [("_id", .lit (.int 0))]) ∧
    (∃ q, GetODataQuery "c1" (.ok ⟨none, none, none, some ["name"], none⟩) = .ret q none ∧
      q.Select = some [("_id", .lit (.int 0))]) :=
  ⟨select_default_projection "c1" ⟨none, none, none, none, none⟩ (Or.inl rfl) (Or.inl rfl),
   select_default_projection "c1" ⟨none, none, none, some ["*"], none⟩ (Or.inl rfl)
     (Or.inr (Or.inl rfl)),
   select_default_projection "c1" ⟨none, none, none, some ["name"], none⟩ (Or.inl rfl)
     (Or.inr (Or.inr ⟨_, rfl, by decide⟩))⟩

theorem sort_fold (items : List OrderItem) : ∀ init : List (String × BVal),
    items.foldl
      (fun sortFields item =>
        sortFields ++ [(item.Field, BVal.lit (.int (if item.Order = "desc" then -1 else 1)))])
      init
    = init ++ items.map (fun item =>
        (item.Field, BVal.lit (.int (if item.Order = "desc" then -1 else 1)))) := by
  induction items with
  | nil => intro init; simp
  | cons item rest ih => intro init; rw [List.foldl_cons, ih]; simp

theorem buildSort_some (items : List OrderItem) :
    buildSort (some items) = items.map (fun item =>
      (item.Field, BVal.lit (.int (if item.Order = "desc" then -1 else 1)))) := by
  unfold buildSort
  simp only []
  rw [sort_fold]
  simp

/-- C15: (for a filter that compiles) the sort of the query returned by `GetODataQuery` has
as many entries as the `$orderby` list; its i-th entry has the field of the i-th pair as
key, and as value -1 when the direction of that pair is `desc` and 1 otherwise; without
`$orderby` the sort is empty. -/
theorem sort_entries (connectionID : String) (queryMap : QueryMap)
    (hc : filterCompiles queryMap) :
    ∃ q, GetODataQuery connectionID (.ok queryMap) = .ret q none ∧
      (queryMap.OrderBy = none → q.SortSpec = []) ∧
      (∀ items, queryMap.OrderBy = some items →
        q.SortSpec.length = items.length ∧
        ∀ (i : Nat) (item : OrderItem), items[i]? = some item →
          q.SortSpec[i]? = some (item.Field,
            BVal.lit (.int (if item.Order = "desc" then -1 else 1)))) := by
  obtain ⟨f, hq⟩ := GetODataQuery_of_compiles connectionID queryMap hc
  refine ⟨_, hq, ?_, ?_⟩
  · intro h
    show buildSort queryMap.OrderBy = []
    rw [h]; rfl
  · intro items h
    show (buildSort queryMap.OrderBy).length = _ ∧
      ∀ (i : Nat) (item : OrderItem), _ → (buildSort queryMap.OrderBy)[i]? = _
    rw [h, buildSort_some]
    refine ⟨by simp, ?_⟩
    intro i item hi
    rw [List.getElem?_map, hi]
    rfl

/-- C15 at `$orderby=time asc,name desc,age`: the sort is `[(time, 1), (name, -1), (age, 1)]`. -/
theorem sort_entries_witness :
    (∃ q, GetODataQuery "c1" (.ok ⟨none, none, none, none,
        some [⟨"time", "asc"⟩, ⟨"name", "desc"⟩, ⟨"age", ""⟩]⟩) = .ret q none ∧
      (q.SortSpec.length = 3 ∧
        ∀ (i : Nat) (item : OrderItem),
          [(⟨"time", "asc"⟩ : OrderItem), ⟨"name", "desc"⟩, ⟨"age", ""⟩][i]? = some item →
          q.SortSpec[i]? = some (item.Field,
            BVal.lit (.int (if item.Order = "desc" then -1 else 1))))) ∧
    buildSort (some [⟨"time", "asc"⟩, ⟨"name", "desc"⟩, ⟨"age", ""⟩])
      = [("time", .lit (.int 1)), ("name", .lit (.int (-1))), ("age", .lit (.int 1))] := by
  constructor
  · obtain ⟨q, h1, _, h3⟩ := sort_entries "c1" ⟨none, none, none, none,
      some [⟨"time", "asc"⟩, ⟨"name", "desc"⟩, ⟨"age", ""⟩]⟩ (Or.inl rfl)
    exact ⟨q, h1, h3 _ rfl⟩
  · rfl

/-- C16: whenever `GetODataQuery` returns (that is, unless compiling the filter panics),
with or without an error, the `Limit` of its query is the integer under `$top` and the
`Skip` the integer under `$skip`, as they are, negative ones included, and 0 when absent. -/
theorem pagination_passthrough (connectionID : String) (queryMap : QueryMap)
    (hnp : ∀ node, queryMap.Filter = some node → compile node ≠ .panic) :
    ∃ q err, GetODataQuery connectionID (.ok queryMap) = .ret q err ∧
      (∀ n, queryMap.Top = some n → q.Limit = n) ∧ (queryMap.Top = none → q.Limit = 0) ∧
      (∀ n, queryMap.Skip = some n → q.Skip = n) ∧ (queryMap.Skip = none → q.Skip = 0) := by
  have hget : ∀ (o : Option Int), (∀ n, o = some n → o.getD 0 = n) ∧ (o = none → o.getD 0 = 0) := by
    intro o
    constructor
    · intro n h; rw [h]; rfl
    · intro h; rw [h]; rfl
  have key : ∃ q err, GetODataQuery connectionID (.ok queryMap) = .ret q err ∧
      q.Limit = queryMap.Top.getD 0 ∧ q.Skip = queryMap.Skip.getD 0 := by
    cases hf : queryMap.Filter with
    | none =>
      obtain ⟨f, hq⟩ := GetODataQuery_of_compiles connectionID queryMap (Or.inl hf)
      exact ⟨_, _, hq, rfl, rfl⟩
    | some node =>
      have hw := applyFilter_wellFormed node
      rcases hw with hp | ⟨m, hm⟩ | he
      · exact absurd hp (hnp node hf)
      · obtain ⟨f, hq⟩ := GetODataQuery_of_compiles connectionID queryMap
          (Or.inr ⟨node, m, hf, hm⟩)
        exact ⟨_, _, hq, rfl, rfl⟩
      · exact ⟨⟨none, none, queryMap.Top.getD 0, queryMap.Skip.getD 0, []⟩,
          some (.Wrap .ErrInvalidInput Error.ErrInvalidInput.message),
          by simp only [GetODataQuery, hf, he], rfl, rfl⟩
  obtain ⟨q, err, hq, hl, hs⟩ := key
  refine ⟨q, err, hq, ?_, ?_, ?_, ?_⟩
  · rw [hl]; exact (hget _).1
  · rw [hl]; exact (hget _).2
  · rw [hs]; exact (hget _).1
  · rw [hs]; exact (hget _).2

/-- C16 at `$top=-5` with `$skip` absent and no filter: `Limit` is -5 and `Skip` is 0. -/
theorem pagination_passthrough_witness :
    ∃ q err, GetODataQuery "c1" (.ok ⟨some (-5), none, none, none, none⟩) = .ret q err ∧
      q.Limit = -5 ∧ q.Skip = 0 := by
  obtain ⟨q, err, h, h1, _, _, h4⟩ := pagination_passthrough "c1"
    ⟨some (-5), none, none, none, none⟩ (by intro node h; cases h)
  exact ⟨q, err, h, h1 _ rfl, h4 rfl⟩

/-! ## Associativity of the connectives -/

theorem holds_and_pair (field : String → BVal → Bool) (other : BVal → Bool) (x y : BVal) :
    holds field other (.m [("$and", .ms [x, y])])
      = (holds field other x && holds field other y) := by
  simp [holds, entriesHold, entryHolds, allHold]

theorem holds_or_pair (field : String → BVal → Bool) (other : BVal → Bool) (x y : BVal) :
    holds field other (.m [("$or", .ms [x, y])])
      = (holds field other x || holds field other y) := by
  simp [holds, entriesHold, entryHolds, someHolds]

/-- Two compiled children under `and` and under `or`. -/
theorem compile_pair (x y : ParseNode) (l r : M)
    (hx : compile x = .ret (some l) none) (hy : compile y = .ret (some r) none) :
    compile (binary "and" x y) = .ret (some [("$and", .ms [.m l, .m r])]) none ∧
    compile (binary "or" x y) = .ret (some [("$or", .ms [.m l, .m r])]) none := by
  unfold binary
  rw [compile_and2, compile_or2, hx, hy]
  simp [BVal.ofM]

/-- C17: when `A`, `B` and `C` each compile, `(A and B) and C` and `A and (B and C)` both
compile, and a record matches the one predicate exactly when it matches the other, whatever
the record makes of the field conditions; likewise for `or`. -/
theorem and_or_associative (field : String → BVal → Bool) (other : BVal → Bool)
    (A B C : ParseNode) (a b c : M)
    (hA : compile A = .ret (some a) none) (hB : compile B = .ret (some b) none)
    (hC : compile C = .ret (some c) none) :
    (∃ p q, compile (binary "and" (binary "and" A B) C) = .ret (some p) none ∧
      compile (binary "and" A (binary "and" B C)) = .ret (some q) none ∧
      holds field other (.m p) = holds field other (.m q)) ∧
    (∃ p q, compile (binary "or" (binary "or" A B) C) = .ret (some p) none ∧
      compile (binary "or" A (binary "or" B C)) = .ret (some q) none ∧
      holds field other (.m p) = holds field other (.m q)) := by
  have hab := compile_pair A B a b hA hB
  have hbc := compile_pair B C b c hB hC
  have h1 := compile_pair (binary "and" A B) C _ c hab.1 hC
  have h2 := compile_pair A (binary "and" B C) a _ hA hbc.1
  have h3 := compile_pair (binary "or" A B) C _ c hab.2 hC
  have h4 := compile_pair A (binary "or" B C) a _ hA hbc.2
  refine ⟨⟨_, _, h1.1, h2.1, ?_⟩, ⟨_, _, h3.2, h4.2, ?_⟩⟩
  · simp only [holds_and_pair, Bool.and_assoc]
  · simp only [holds_or_pair, Bool.or_assoc]

/-- C17 at `a eq 1`, `b eq 2`, `c eq 3`, for a record that meets only the condition on `b`. -/
theorem and_or_associative_witness :
    (∃ p q,
      compile (binary "and" (binary "and" (binary "eq" (leaf (.str "a")) (leaf (.int 1)))
          (binary "eq" (leaf (.str "b")) (leaf (.int 2))))
          (binary "eq" (leaf (.str "c")) (leaf (.int 3)))) = .ret (some p) none ∧
      compile (binary "and" (binary "eq" (leaf (.str "a")) (leaf (.int 1)))
          (binary "and" (binary "eq" (leaf (.str "b")) (leaf (.int 2)))
            (binary "eq" (leaf (.str "c")) (leaf (.int 3))))) = .ret (some q) none ∧
      holds (fun k _ => k == "b") (fun _ => false) (.m p)
        = holds (fun k _ => k == "b") (fun _ => false) (.m q)) ∧
    (∃ p q,
      compile (binary "or" (binary "or" (binary "eq" (leaf (.str "a")) (leaf (.int 1)))
          (binary "eq" (leaf (.str "b")) (leaf (.int 2))))
          (binary "eq" (leaf (.str "c")) (leaf (.int 3)))) = .ret (some p) none ∧
      compile (binary "or" (binary "eq" (leaf (.str "a")) (leaf (.int 1)))
          (binary "or" (binary "eq" (leaf (.str "b")) (leaf (.int 2)))
            (binary "eq" (leaf (.str "c")) (leaf (.int 3))))) = .ret (some q) none ∧
      holds (fun k _ => k == "b") (fun _ => false) (.m p)
        = holds (fun k _ => k == "b") (fun _ => false) (.m q)) :=
  and_or_associative (fun k _ => k == "b") (fun _ => false) _ _ _ _ _ _ rfl rfl rfl

/-! ## The tree after the call -/

theorem tokenKept_refl (allow : Bool) (t : Token) : tokenKept allow t t = true := by
  simp [tokenKept]

mutual
theorem sameNode_refl : ∀ (allow : Bool) (n : ParseNode), sameNode allow n n = true
  | allow, .mk t cs => by
    simp only [sameNode, tokenKept_refl, Bool.true_and]
    exact sameChildren_refl _ 0 cs
theorem sameChildren_refl : ∀ (strip : Bool) (i : Nat) (cs : List ParseNode),
    sameChildren strip i cs cs = true
  | _, _, [] => by simp [sameChildren]
  | strip, i, c :: cs => by
    simp only [sameChildren, Bool.and_eq_true]
    exact ⟨sameNode_refl _ c, sameChildren_refl strip (i + 1) cs⟩
end

/-- A node whose token lost its single quotes, where that is allowed. -/
theorem sameNode_setValue (c1 : ParseNode) (s : String) (h : c1.token.Value = .str s) :
    sameNode true c1 (c1.setValue (.str (stripQuotes s))) = true := by
  obtain ⟨t, cs⟩ := c1
  simp only [ParseNode.token] at h
  simp only [ParseNode.setValue, sameNode, Bool.and_eq_true]
  refine ⟨?_, sameChildren_refl _ 0 cs⟩
  simp [tokenKept, h]

/-- Children of which the first two were replaced by trees of the same shape. -/
theorem sameNode_children (tok : Token) (c0 c0' c1 c1' : ParseNode) (rest : List ParseNode)
    (h0 : sameNode false c0 c0' = true)
    (h1 : sameNode (match tok.Value with
                    | .str op => stripOperators.contains op
                    | _ => false) c1 c1' = true) :
    sameNode false (.mk tok (c0 :: c1 :: rest)) (.mk tok (c0' :: c1' :: rest)) = true := by
  simp only [sameNode, sameChildren, tokenKept_refl, Bool.true_and, Bool.and_eq_true]
  refine ⟨?_, ?_, sameChildren_refl _ _ rest⟩
  · simpa using h0
  · simpa using h1

theorem sameNode_first (tok : Token) (c0 c0' : ParseNode) (tl : List ParseNode)
    (h0 : sameNode false c0 c0' = true) :
    sameNode false (.mk tok (c0 :: tl)) (.mk tok (c0' :: tl)) = true := by
  simp only [sameNode, sameChildren, tokenKept_refl, Bool.true_and, Bool.and_eq_true]
  refine ⟨?_, sameChildren_refl _ _ tl⟩
  simpa using h0

theorem cmpCase_same (op : String) (hop : op ∈ stripOperators) (children : List ParseNode) :
    sameNode false (.mk ⟨.str op⟩ children) (cmpCase ⟨.str op⟩ op children).1 = true := by
  rcases children with _ | ⟨c0, _ | ⟨c1, rest⟩⟩
  · exact sameNode_refl _ _
  · exact sameNode_refl _ _
  · have h1 : ∀ c1', sameNode true c1 c1' = true →
        sameNode false (.mk ⟨.str op⟩ (c0 :: c1 :: rest)) (.mk ⟨.str op⟩ (c0 :: c1' :: rest))
          = true := by
      intro c1' h
      exact sameNode_children _ _ _ _ _ _ (sameNode_refl _ _) (by simpa [hop] using h)
    cases hv1 : c1.token.Value with
    | str s =>
      have := h1 _ (sameNode_setValue c1 s hv1)
      cases hv0 : c0.token.Value <;> simpa [cmpCase, hv0, hv1] using this
    | _ =>
      have := h1 _ (sameNode_refl true c1)
      cases hv0 : c0.token.Value <;> simpa [cmpCase, hv0, hv1] using this

theorem gtCase_fst (tok : Token) (op : String) (children : List ParseNode) :
    (gtCase tok op children).1 = .mk tok children := by
  rcases children with _ | ⟨c0, _ | ⟨c1, rest⟩⟩
  · rfl
  · cases h : c0.token.Value <;> simp [gtCase, h]
  · cases h : c0.token.Value <;> simp [gtCase, h]
    split
    · split <;> rfl
    · rfl

theorem rangeCase_fst (tok : Token) (native : String) (children : List ParseNode) :
    (rangeCase tok native children).1 = .mk tok children := by
  rcases children with _ | ⟨c0, _ | ⟨c1, rest⟩⟩
  · rfl
  · rfl
  · cases h : c0.token.Value <;> simp [rangeCase, h]

theorem regexCase_same (op : String) (hop : op ∈ stripOperators) (pattern : String → String)
    (children : List ParseNode) :
    sameNode false (.mk ⟨.str op⟩ children) (regexCase ⟨.str op⟩ pattern children).1 = true := by
  rcases children with _ | ⟨c0, _ | ⟨c1, rest⟩⟩
  · exact sameNode_refl _ _
  · exact sameNode_refl _ _
  · cases hv1 : c1.token.Value with
    | str s =>
      have := sameNode_children ⟨.str op⟩ c0 c0 c1 _ rest (sameNode_refl _ _)
        (by simpa [hop] using sameNode_setValue c1 s hv1)
      cases hv0 : c0.token.Value <;> simpa [regexCase, hv0, hv1] using this
    | _ =>
      have := sameNode_refl false (.mk ⟨.str op⟩ (c0 :: c1 :: rest))
      simpa [regexCase, hv1] using this

theorem andCase_fst_none (tok : Token) (left : ParseNode × Ret (Option M))
    (tl : List ParseNode) : (andCase tok left tl none).1 = .mk tok (left.1 :: tl) := by
  rcases left with ⟨c0', ⟨l, _ | e⟩ | _⟩ <;> rfl

theorem orCase_fst_none (tok : Token) (left : ParseNode × Ret (Option M))
    (tl : List ParseNode) : (orCase tok left tl none).1 = .mk tok (left.1 :: tl) := by
  rcases left with ⟨c0', ⟨l, _ | e⟩ | _⟩ <;> rfl

theorem andCase_fst_some (tok : Token) (left right : ParseNode × Ret (Option M))
    (c1 : ParseNode) (rest : List ParseNode) :
    (andCase tok left (c1 :: rest) (some right)).1 = .mk tok (left.1 :: c1 :: rest) ∨
    (andCase tok left (c1 :: rest) (some right)).1 = .mk tok (left.1 :: right.1 :: rest) := by
  rcases left with ⟨c0', ⟨l, _ | e⟩ | _⟩ <;>
    rcases right with ⟨c1', ⟨r, _ | e1⟩ | _⟩ <;> simp [andCase]

theorem orCase_fst_some (tok : Token) (left right : ParseNode × Ret (Option M))
    (c1 : ParseNode) (rest : List ParseNode) :
    (orCase tok left (c1 :: rest) (some right)).1 = .mk tok (left.1 :: c1 :: rest) ∨
    (orCase tok left (c1 :: rest) (some right)).1 = .mk tok (left.1 :: right.1 :: rest) := by
  rcases left with ⟨c0', ⟨l, _ | e⟩ | _⟩ <;>
    rcases right with ⟨c1', ⟨r, _ | e1⟩ | _⟩ <;> simp [orCase]

/-- The comparison `sameNode` tells trees apart: a literal stripped under `gt`, a changed
field name and a dropped child are each refused, and the tree after `name eq 'O'Brien'`
holds `OBrien`. -/
theorem sameNode_examples :
    sameNode false (binary "gt" (leaf (.str "name")) (leaf (.str "O\x27Brien")))
      (binary "gt" (leaf (.str "name")) (leaf (.str "OBrien"))) = false ∧
    sameNode false (binary "eq" (leaf (.str "na\x27me")) (leaf (.int 1)))
      (binary "eq" (leaf (.str "name")) (leaf (.int 1))) = false ∧
    sameNode false (binary "eq" (leaf (.str "name")) (leaf (.int 1)))
      (.mk ⟨.str "eq"⟩ [leaf (.str "name")]) = false ∧
    (applyFilter (binary "eq" (leaf (.str "name")) (leaf (.str "O\x27Brien")))).1
      = binary "eq" (leaf (.str "name")) (leaf (.str "OBrien")) := by
  refine ⟨by decide, by decide, by decide, rfl⟩

/-- C18: whatever `applyFilter` returns, the tree after the call has the shape of the tree
before it: at every node the same token and the same children in the same order, except
that the token of the second child of an `eq`, `ne`, `startswith`, `endswith` or `contains`
node, when it held a string, may hold that string without its single quotes. -/
theorem tree_shape_kept : ∀ n : ParseNode, sameNode false n (applyFilter n).1 = true
  | .mk tok children => by
    cases tok with
    | mk v =>
      by_cases hs : ∀ s, v ≠ .str s
      · rw [applyFilter_nonString v children hs]; exact sameNode_refl _ _
      · push_neg at hs
        obtain ⟨op, rfl⟩ := hs
        by_cases hop : op ∈ operators
        · simp only [operators, List.mem_cons, List.mem_singleton, List.not_mem_nil,
            or_false] at hop
          rcases hop with rfl | rfl | rfl | rfl | rfl | rfl | rfl | rfl | rfl | rfl | rfl
          · rw [applyFilter_eq]; exact cmpCase_same _ (by decide) _
          · rw [applyFilter_ne]; exact cmpCase_same _ (by decide) _
          · rw [applyFilter_gt, gtCase_fst]; exact sameNode_refl _ _
          · rw [applyFilter_ge, rangeCase_fst]; exact sameNode_refl _ _
          · rw [applyFilter_lt, rangeCase_fst]; exact sameNode_refl _ _
          · rw [applyFilter_le, rangeCase_fst]; exact sameNode_refl _ _
          · match children with
            | [] =>
              have h : applyFilter (.mk ⟨.str "and"⟩ []) = (.mk ⟨.str "and"⟩ [], .panic) := by
                simp [applyFilter]
              rw [h]; exact sameNode_refl _ _
            | [c0] =>
              have h : applyFilter (.mk ⟨.str "and"⟩ [c0]) =
                  andCase ⟨.str "and"⟩ (applyFilter c0) [] none := by simp [applyFilter]
              rw [h, andCase_fst_none]
              exact sameNode_first _ _ _ _ (tree_shape_kept c0)
            | c0 :: c1 :: rest =>
              rw [applyFilter_and2]
              rcases andCase_fst_some ⟨.str "and"⟩ (applyFilter c0) (applyFilter c1) c1 rest
                with h | h
              · rw [h]; exact sameNode_first _ _ _ _ (tree_shape_kept c0)
              · rw [h]
                exact sameNode_children _ _ _ _ _ _ (tree_shape_kept c0) (tree_shape_kept c1)
          · match children with
            | [] =>
              have h : applyFilter (.mk ⟨.str "or"⟩ []) = (.mk ⟨.str "or"⟩ [], .panic) := by
                simp [applyFilter]
              rw [h]; exact sameNode_refl _ _
            | [c0] =>
              have h : applyFilter (.mk ⟨.str "or"⟩ [c0]) =
                  orCase ⟨.str "or"⟩ (applyFilter c0) [] none := by simp [applyFilter]
              rw [h, orCase_fst_none]
              exact sameNode_first _ _ _ _ (tree_shape_kept c0)
            | c0 :: c1 :: rest =>
              rw [applyFilter_or2]
              rcases orCase_fst_some ⟨.str "or"⟩ (applyFilter c0) (applyFilter c1) c1 rest
                with h | h
              · rw [h]; exact sameNode_first _ _ _ _ (tree_shape_kept c0)
              · rw [h]
                exact sameNode_children _ _ _ _ _ _ (tree_shape_kept c0) (tree_shape_kept c1)
          · rw [applyFilter_startswith]; exact regexCase_same _ (by decide) _ _
          · rw [applyFilter_endswith]; exact regexCase_same _ (by decide) _ _
          · rw [applyFilter_contains]; exact regexCase_same _ (by decide) _ _
        · rw [applyFilter_other op children hop]; exact sameNode_refl _ _

/-! ## The two entry points -/

/-- The backend calls of `ODataQuery` once the filter compiled to `filterObj`; the select map
and the sort fields it builds (mongo.go 73-97) are those of `GetODataQuery`. -/
theorem ODataQuery_compiled (connectionID : String) (queryMap : QueryMap)
    (collection : Collection) (filterObj : M)
    (hc : (match queryMap.Filter with
          | none => Ret.ret (some ([] : M)) none
          | some filterQuery => (applyFilter filterQuery).2) = .ret (some filterObj) none) :
    ODataQuery connectionID (.ok queryMap) collection =
      match collection.Find
          ⟨mapSet filterObj "$and" (.ms (addConnectionToAndQuery connectionID filterObj)),
            buildSelect queryMap.Select, queryMap.Top.getD 0, queryMap.Skip.getD 0,
            buildSort queryMap.OrderBy⟩ with
      | some text =>
        ([.find ⟨mapSet filterObj "$and" (.ms (addConnectionToAndQuery connectionID filterObj)),
            buildSelect queryMap.Select, queryMap.Top.getD 0, queryMap.Skip.getD 0,
            buildSort queryMap.OrderBy⟩], .ret 0 (some (.backend text)))
      | none =>
        match collection.All
            ⟨mapSet filterObj "$and" (.ms (addConnectionToAndQuery connectionID filterObj)),
              buildSelect queryMap.Select, queryMap.Top.getD 0, queryMap.Skip.getD 0,
              buildSort queryMap.OrderBy⟩ with
        | some text =>
          ([.find ⟨mapSet filterObj "$and" (.ms (addConnectionToAndQuery connectionID filterObj)),
              buildSelect queryMap.Select, queryMap.Top.getD 0, queryMap.Skip.getD 0,
              buildSort queryMap.OrderBy⟩, .all], .ret 0 (some (.backend text)))
        | none =>
          match collection.CountDocuments
              (mapSet filterObj "$and" (.ms (addConnectionToAndQuery connectionID filterObj))) with
          | .error text =>
            ([.find ⟨mapSet filterObj "$and" (.ms (addConnectionToAndQuery connectionID filterObj)),
                buildSelect queryMap.Select, queryMap.Top.getD 0, queryMap.Skip.getD 0,
                buildSort queryMap.OrderBy⟩, .all,
              .count (mapSet filterObj "$and" (.ms (addConnectionToAndQuery connectionID filterObj)))],
              .ret 0 (some (.backend text)))
          | .ok count =>
            ([.find ⟨mapSet filterObj "$and" (.ms (addConnectionToAndQuery connectionID filterObj)),
                buildSelect queryMap.Select, queryMap.Top.getD 0, queryMap.Skip.getD 0,
                buildSort queryMap.OrderBy⟩, .all,
              .count (mapSet filterObj "$and" (.ms (addConnectionToAndQuery connectionID filterObj)))],
              .ret count none) := by
  simp only [ODataQuery, hc]
  rfl

/-- The two entry points side by side: both panic, or both fail with the same error and
no backend call is made, or `GetODataQuery` returns a query and `ODataQuery` hands its
fields to `Find`. -/
theorem entry_points_cases (connectionID : String) (parsed : Except String QueryMap)
    (collection : Collection) :
    (GetODataQuery connectionID parsed = .panic ∧
      ODataQuery connectionID parsed collection = ([], .panic)) ∨
    (∃ q e, GetODataQuery connectionID parsed = .ret q (some e) ∧
      ODataQuery connectionID parsed collection = ([], .ret 0 (some (.invalid e)))) ∨
    (∃ f s l k o rest r,
      GetODataQuery connectionID parsed = .ret ⟨some f, some s, l, k, o⟩ none ∧
      ODataQuery connectionID parsed collection = (.find ⟨f, s, l, k, o⟩ :: rest, r) ∧
      (∀ n e, r ≠ .ret n (some (.invalid e))) ∧
      (rest = [] ∨ rest = [.all] ∨ rest = [.all, .count f]) ∧
      (collection.Find ⟨f, s, l, k, o⟩ = none → collection.All ⟨f, s, l, k, o⟩ = none →
        rest = [.all, .count f])) := by
  cases parsed with
  | error text =>
    exact Or.inr (Or.inl ⟨⟨none, none, 0, 0, []⟩, .Wrap .ErrInvalidInput text, rfl, rfl⟩)
  | ok queryMap =>
    generalize hc : (match queryMap.Filter with
          | none => Ret.ret (some ([] : M)) none
          | some filterQuery => (applyFilter filterQuery).2) = c
    have herr : ∀ v e, c = .ret v (some e) →
        ∃ q e, GetODataQuery connectionID (.ok queryMap) = .ret q (some e) ∧
          ODataQuery connectionID (.ok queryMap) collection
            = ([], .ret 0 (some (.invalid e))) := by
      intro v e h
      subst h
      exact ⟨⟨none, none, queryMap.Top.getD 0, queryMap.Skip.getD 0, []⟩,
        .Wrap .ErrInvalidInput e.message, by simp only [GetODataQuery, hc],
        by simp only [ODataQuery, hc]⟩
    rcases c with ⟨_ | filterObj, _ | e⟩ | _
    · exact Or.inl ⟨by simp only [GetODataQuery, hc], by simp only [ODataQuery, hc]⟩
    · exact Or.inr (Or.inl (herr _ _ rfl))
    · refine Or.inr (Or.inr ?_)
      have hG : GetODataQuery connectionID (.ok queryMap)
          = .ret ⟨some (mapSet filterObj "$and"
                (.ms (addConnectionToAndQuery connectionID filterObj))),
              some (buildSelect queryMap.Select), queryMap.Top.getD 0, queryMap.Skip.getD 0,
              buildSort queryMap.OrderBy⟩ none := by
        simp only [GetODataQuery, hc]
      have hO := ODataQuery_compiled connectionID queryMap collection filterObj hc
      refine ⟨mapSet filterObj "$and" (.ms (addConnectionToAndQuery connectionID filterObj)),
        buildSelect queryMap.Select, queryMap.Top.getD 0, queryMap.Skip.getD 0,
        buildSort queryMap.OrderBy, ?_⟩
      cases hF : collection.Find
          ⟨mapSet filterObj "$and" (.ms (addConnectionToAndQuery connectionID filterObj)),
            buildSelect queryMap.Select, queryMap.Top.getD 0, queryMap.Skip.getD 0,
            buildSort queryMap.OrderBy⟩ with
      | some text =>
        rw [hF] at hO
        exact ⟨[], _, hG, hO, (fun n e h => by cases h), Or.inl rfl, (fun h => by cases h)⟩
      | none =>
        rw [hF] at hO
        cases hA : collection.All
            ⟨mapSet filterObj "$and" (.ms (addConnectionToAndQuery connectionID filterObj)),
              buildSelect queryMap.Select, queryMap.Top.getD 0, queryMap.Skip.getD 0,
              buildSort queryMap.OrderBy⟩ with
        | some text =>
          rw [hA] at hO
          exact ⟨[.all], _, hG, hO, (fun n e h => by cases h), Or.inr (Or.inl rfl),
            (fun _ h => by cases h)⟩
        | none =>
          rw [hA] at hO
          cases hC : collection.CountDocuments
              (mapSet filterObj "$and" (.ms (addConnectionToAndQuery connectionID filterObj))) with
          | error text =>
            rw [hC] at hO
            exact ⟨_, _, hG, hO, (fun n e h => by cases h), Or.inr (Or.inr rfl), fun _ _ => rfl⟩
          | ok count =>
            rw [hC] at hO
            exact ⟨_, _, hG, hO, (fun n e h => by cases h), Or.inr (Or.inr rfl), fun _ _ => rfl⟩
    · exact Or.inr (Or.inl (herr _ _ rfl))
    · exact Or.inl ⟨by simp only [GetODataQuery, hc], by simp only [ODataQuery, hc]⟩

/-- C19: when `GetODataQuery` returns a query, `ODataQuery` first calls `Find` with the
`Filter`, `Select`, `Limit`, `Skip` and `Sort` of that query, every `CountDocuments` call it
makes is given that same filter, and once `Find` and `cur.All` succeed it makes that call;
when `GetODataQuery` fails, `ODataQuery` returns the same error without any backend call;
and `ODataQuery` returns an error of this package only in that case, never after a
backend call. -/
theorem entry_points_agree (connectionID : String) (parsed : Except String QueryMap)
    (collection : Collection) :
    (∀ q, GetODataQuery connectionID parsed = .ret q none →
      ∃ f s rest r, q.Filter = some f ∧ q.Select = some s ∧
        ODataQuery connectionID parsed collection
          = (.find ⟨f, s, q.Limit, q.Skip, q.SortSpec⟩ :: rest, r) ∧
        (∀ g, BackendCall.count g ∈ rest → g = f) ∧
        (collection.Find ⟨f, s, q.Limit, q.Skip, q.SortSpec⟩ = none →
          collection.All ⟨f, s, q.Limit, q.Skip, q.SortSpec⟩ = none →
          rest = [.all, .count f])) ∧
    (∀ q e, GetODataQuery connectionID parsed = .ret q (some e) →
      ODataQuery connectionID parsed collection = ([], .ret 0 (some (.invalid e)))) ∧
    (∀ calls n e,
      ODataQuery connectionID parsed collection = (calls, .ret n (some (.invalid e))) →
      calls = [] ∧ ∃ q, GetODataQuery connectionID parsed = .ret q (some e)) := by
  rcases entry_points_cases connectionID parsed collection with
    ⟨hG, hO⟩ | ⟨q0, e0, hG, hO⟩ | ⟨f, s, l, k, o, rest, r, hG, hO, hr, hrest, hcount⟩
  · refine ⟨?_, ?_, ?_⟩
    · intro q h; rw [hG] at h; cases h
    · intro q e h; rw [hG] at h; cases h
    · intro calls n e h; rw [hO] at h; cases h
  · refine ⟨?_, ?_, ?_⟩
    · intro q h; rw [hG] at h; cases h
    · intro q e h
      rw [hG] at h
      cases h
      exact hO
    · intro calls n e h
      rw [hO] at h
      cases h
      exact ⟨rfl, q0, hG⟩
  · refine ⟨?_, ?_, ?_⟩
    · intro q h
      rw [hG] at h
      cases h
      refine ⟨f, s, rest, r, rfl, rfl, hO, ?_, hcount⟩
      intro g hg
      rcases hrest with h1 | h1 | h1 <;> rw [h1] at hg <;> simp at hg
      exact hg
    · intro q e h; rw [hG] at h; cases h
    · intro calls n e h
      rw [hO] at h
      cases h
      exact absurd rfl (hr n e)

/-- C19 at `$top=10` with `$select=name,age`, for a backend whose calls succeed and which
counts 5 documents, and at a filter `0 eq b` that does not compile. -/
theorem entry_points_agree_witness :
    (∃ f s rest r,
      ODataQuery "c1" (.ok ⟨some 10, none, none, some ["name", "age"], none⟩)
          ⟨fun _ => none, fun _ => none, fun _ => .ok 5⟩
        = (.find ⟨f, s, 10, 0, []⟩ :: rest, r) ∧
      f = [("$and", .ms [scopingClause "c1"])] ∧
      s = [("_id", .lit (.int 0)), ("name", .lit (.int 1)), ("age", .lit (.int 1))] ∧
      rest = [.all, .count f]) ∧
    ODataQuery "c1" (.ok ⟨none, none,
        some (binary "eq" (leaf (.int 0)) (leaf (.str "b"))), none, none⟩)
        ⟨fun _ => none, fun _ => none, fun _ => .ok 5⟩
      = ([], .ret 0 (some (.invalid (.Wrap .ErrInvalidInput "odata syntax error")))) := by
  constructor
  · obtain ⟨f, s, rest, r, h1, h2, h3, _, h5⟩ :=
      (entry_points_agree "c1" (.ok ⟨some 10, none, none, some ["name", "age"], none⟩)
        ⟨fun _ => none, fun _ => none, fun _ => .ok 5⟩).1
        ⟨some [("$and", .ms [scopingClause "c1"])],
          some [("_id", .lit (.int 0)), ("name", .lit (.int 1)), ("age", .lit (.int 1))],
          10, 0, []⟩ rfl
    cases h1
    cases h2
    exact ⟨_, _, rest, r, h3, rfl, rfl, h5 rfl rfl⟩
  · exact (entry_points_agree "c1" (.ok ⟨none, none,
        some (binary "eq" (leaf (.int 0)) (leaf (.str "b"))), none, none⟩)
        ⟨fun _ => none, fun _ => none, fun _ => .ok 5⟩).2.1
        ⟨none, none, 0, 0, []⟩ _ rfl

/-! ## Totality on well-shaped trees -/

theorem wellShaped_operator (op : String) (hop : op ∈ operators) (children : List ParseNode)
    (h : wellShaped (.mk ⟨.str op⟩ children) = true) :
    ∃ c0 c1, children = [c0, c1] ∧ wellShaped c0 = true ∧ wellShaped c1 = true ∧
      (op ∈ patternOperators → ∃ f, c0.token.Value = .str f) := by
  simp only [wellShaped, Bool.and_eq_true, Bool.or_eq_true, Bool.not_eq_true',
    beq_iff_eq] at h
  obtain ⟨⟨hlen, hpat⟩, hall⟩ := h
  have hlen2 : children.length = 2 := by
    rcases hlen with h1 | h1
    · have : operators.contains op = true := by simpa using hop
      rw [this] at h1; cases h1
    · exact h1
  match children, hlen2, hall, hpat with
  | [c0, c1], _, hall, hpat =>
    simp only [allWellShaped, Bool.and_eq_true, Bool.and_true] at hall
    refine ⟨c0, c1, rfl, hall.1, hall.2, ?_⟩
    intro hp
    rcases hpat with h1 | h1
    · have : patternOperators.contains op = true := by simpa using hp
      rw [this] at h1; cases h1
    · simp only [List.head?_cons, Token.isString] at h1
      cases hv : c0.token.Value with
      | str f => exact ⟨f, rfl⟩
      | _ => rw [hv] at h1; cases h1

theorem no_panic_of_wellShaped : ∀ n : ParseNode, wellShaped n = true →
    compile n ≠ .panic
  | .mk tok children => by
    intro hw
    cases tok with
    | mk v =>
      by_cases hs : ∀ s, v ≠ .str s
      · rw [compile, applyFilter_nonString v children hs]; simp
      · push_neg at hs
        obtain ⟨op, rfl⟩ := hs
        by_cases hop : op ∈ operators
        · obtain ⟨c0, c1, rfl, h0, h1, hpat⟩ := wellShaped_operator op hop children hw
          simp only [operators, List.mem_cons, List.mem_singleton, List.not_mem_nil,
            or_false] at hop
          rcases hop with rfl | rfl | rfl | rfl | rfl | rfl | rfl | rfl | rfl | rfl | rfl
          · rw [compile, applyFilter_eq, cmpCase_snd]
            cases c0.token.Value <;> simp
          · rw [compile, applyFilter_ne, cmpCase_snd]
            cases c0.token.Value <;> simp
          · rw [compile, applyFilter_gt, gtCase_snd]
            cases c0.token.Value <;> simp
            split
            · split <;> simp
            · simp
          · rw [compile, applyFilter_ge, rangeCase_snd]
            cases c0.token.Value <;> simp
          · rw [compile, applyFilter_lt, rangeCase_snd]
            cases c0.token.Value <;> simp
          · rw [compile, applyFilter_le, rangeCase_snd]
            cases c0.token.Value <;> simp
          · have i0 := no_panic_of_wellShaped c0 h0
            have i1 := no_panic_of_wellShaped c1 h1
            rw [compile_and2]
            rcases hc0 : compile c0 with ⟨l, _ | e⟩ | _
            · rcases hc1 : compile c1 with ⟨r, _ | e1⟩ | _
              · simp
              · simp
              · exact absurd hc1 i1
            · simp
            · exact absurd hc0 i0
          · have i0 := no_panic_of_wellShaped c0 h0
            have i1 := no_panic_of_wellShaped c1 h1
            rw [compile_or2]
            rcases hc0 : compile c0 with ⟨l, _ | e⟩ | _
            · rcases hc1 : compile c1 with ⟨r, _ | e1⟩ | _
              · simp
              · simp
              · exact absurd hc1 i1
            · simp
            · exact absurd hc0 i0
          · obtain ⟨f, hf⟩ := hpat (by decide)
            rw [compile, applyFilter_startswith, regexCase_snd, hf]
            cases c1.token.Value <;> simp
          · obtain ⟨f, hf⟩ := hpat (by decide)
            rw [compile, applyFilter_endswith, regexCase_snd, hf]
            cases c1.token.Value <;> simp
          · obtain ⟨f, hf⟩ := hpat (by decide)
            rw [compile, applyFilter_contains, regexCase_snd, hf]
            cases c1.token.Value <;> simp
        · rw [compile, applyFilter_other op children hop]; simp

/-- C20: on a tree in which every node with one of the eleven operators as token has
exactly two children, and every `startswith`, `endswith` or `contains` node a string token
as first child, `applyFilter` (a total function: the recursion is on the finite tree)
returns a predicate with a nil error or returns `ErrInvalidInput`; it does not panic on a
child access or on a type assertion. -/
theorem total_on_wellShaped (n : ParseNode) (h : wellShaped n = true) :
    compile n ≠ .panic ∧
    ((∃ m, compile n = .ret (some m) none) ∨ compile n = .ret none (some .ErrInvalidInput)) := by
  have hnp := no_panic_of_wellShaped n h
  refine ⟨hnp, ?_⟩
  rcases applyFilter_wellFormed n with hp | hm | he
  · exact absurd hp hnp
  · exact Or.inl hm
  · exact Or.inr he

/-- C20 at the trees of `(name eq 'test') and startswith(code, '456')` and of
`(_id gt 'xyz') or (age le 10)`. -/
theorem total_on_wellShaped_witness :
    (compile (binary "and" (binary "eq" (leaf (.str "name")) (leaf (.str "\x27test\x27")))
        (binary "startswith" (leaf (.str "code")) (leaf (.str "\x27456\x27")))) ≠ .panic ∧
      ((∃ m, compile (binary "and"
          (binary "eq" (leaf (.str "name")) (leaf (.str "\x27test\x27")))
          (binary "startswith" (leaf (.str "code")) (leaf (.str "\x27456\x27"))))
            = .ret (some m) none) ∨
        compile (binary "and" (binary "eq" (leaf (.str "name")) (leaf (.str "\x27test\x27")))
          (binary "startswith" (leaf (.str "code")) (leaf (.str "\x27456\x27"))))
            = .ret none (some .ErrInvalidInput))) ∧
    (compile (binary "or" (binary "gt" (leaf (.str "_id")) (leaf (.str "\x27xyz\x27")))
        (binary "le" (leaf (.str "age")) (leaf (.int 10)))) ≠ .panic ∧
      ((∃ m, compile (binary "or"
          (binary "gt" (leaf (.str "_id")) (leaf (.str "\x27xyz\x27")))
          (binary "le" (leaf (.str "age")) (leaf (.int 10)))) = .ret (some m) none) ∨
        compile (binary "or" (binary "gt" (leaf (.str "_id")) (leaf (.str "\x27xyz\x27")))
          (binary "le" (leaf (.str "age")) (leaf (.int 10))))
            = .ret none (some .ErrInvalidInput))) :=
  ⟨total_on_wellShaped _ (by decide), total_on_wellShaped _ (by decide)⟩

end OData
